import Mathlib

/-!
Verification of the Portal Finder query-result cache
(`backend/services/CacheService.js` and the cache admin routes in
`backend/routes/search.js`).

The JavaScript source is shallowly embedded: strings are `String`/`List Char`,
times are milliseconds since the Unix epoch as `Nat`, the JS `Map` used for the
memory tier is an insertion-ordered association list, and the SQLite tables are
lists of rows.  Every definition mirrors the corresponding source function;
comments on each definition point to the source construct it embeds.
-/

namespace PortalFinder

/-! ## QueryNormalizer (`normalizeQuery`)

The source builds the normalized query with a chain of JS string operations:

  query.toLowerCase().trim()
    .replace(whitespaceRun, oneSpace)
    .replace(stopWordAlternation, empty)
    .replace(punctuationClass, empty)
    .replace(whitespaceRun, oneSpace)
    .trim()

Each stage is embedded below as a function on `List Char`.  The model covers
the ASCII range (the data the service actually handles); `Char.toLower` is
exactly the ASCII lowercasing JS performs there.
-/

/-- JS regex class `\s` restricted to ASCII: space, tab, line feed, vertical
tab, form feed, carriage return. -/
def isWsChar (c : Char) : Bool :=
  c = ' ' || c = '\t' || c = '\n' || c = '\x0b' || c = '\x0c' || c = '\r'

/-- JS regex class `\w`: ASCII letters, digits and underscore. -/
def isWordChar (c : Char) : Bool :=
  ('a' ≤ c && c ≤ 'z') || ('A' ≤ c && c ≤ 'Z') || ('0' ≤ c && c ≤ '9') || c = '_'

/-- The fixed stop-word set removed by `normalizeQuery`
(`the|a|an|and|or|of|for|in|on|at|to|by|with`). -/
def stopWords : List (List Char) :=
  ["the", "a", "an", "and", "or", "of", "for", "in", "on", "at", "to", "by",
    "with"].map String.data

/-- JS `String.prototype.trim`: drop whitespace from both ends. -/
def jsTrim (l : List Char) : List Char :=
  ((l.dropWhile isWsChar).reverse.dropWhile isWsChar).reverse

/-- JS `replace(whitespaceRunRegex, oneSpace)` applied globally: every maximal
run of whitespace becomes a single space character. -/
def collapseWs : List Char → List Char
  | [] => []
  | [c] => if isWsChar c then [' '] else [c]
  | c :: d :: rest =>
    if isWsChar c && isWsChar d then collapseWs (d :: rest)
    else (if isWsChar c then ' ' else c) :: collapseWs (d :: rest)

/-- Replacement applied to one complete word (a maximal `\w` run): a stop word
is deleted, any other word is kept.  The word-boundary anchors `\b` in the
source regex mean a stop word can only match a complete maximal word run. -/
def emitWord (w : List Char) : List Char :=
  if stopWords.contains w then [] else w

/-- Scanner for the global stop-word replacement: `buf` holds the current word
run (reversed); at the end of a run the word is emitted through `emitWord`. -/
def removeStopAux : List Char → List Char → List Char
  | buf, [] => emitWord buf.reverse
  | buf, c :: rest =>
    if isWordChar c then removeStopAux (c :: buf) rest
    else emitWord buf.reverse ++ c :: removeStopAux [] rest

/-- JS `replace(stopWordAlternationRegex, empty)` applied globally. -/
def removeStopWords (l : List Char) : List Char := removeStopAux [] l

/-- JS `replace(punctuationClassRegex, empty)`: delete every character that is
neither a word character nor whitespace. -/
def removePunct (l : List Char) : List Char :=
  l.filter fun c => isWordChar c || isWsChar c

/-- Embedding of `CacheService.normalizeQuery` on character lists: lowercase, trim,
collapse whitespace, remove stop words, strip punctuation, collapse
whitespace again, trim. -/
def normalizeQueryL (l : List Char) : List Char :=
  jsTrim (collapseWs (removePunct (removeStopWords
    (collapseWs (jsTrim (l.map Char.toLower))))))

/-- Embedding of `CacheService.normalizeQuery`. -/
def normalizeQuery (s : String) : String := ⟨normalizeQueryL s.data⟩

/-- Maximal word-run extractor used to reason about the stop-word stage:
`runsAux buf l` collects the maximal `\w` runs of `buf.reverse ++ l`, where
`buf` is the (reversed) currently open run. -/
def runsAux : List Char → List Char → List (List Char)
  | buf, [] => if buf.isEmpty then [] else [buf.reverse]
  | buf, c :: rest =>
    if isWordChar c then runsAux (c :: buf) rest
    else (if buf.isEmpty then [] else [buf.reverse]) ++ runsAux [] rest

/-- The list of maximal word runs of a string. -/
def wordRuns (l : List Char) : List (List Char) := runsAux [] l

/-- No whitespace at the front of a list. -/
def HeadNotWs (l : List Char) : Prop :=
  ∀ c, l.head? = some c → isWsChar c = false

/-- No whitespace at the back of a list. -/
def LastNotWs (l : List Char) : Prop :=
  ∀ c, l.getLast? = some c → isWsChar c = false

/-- Adjacent whitespace never occurs: between every neighbouring pair at
least one character is not whitespace. -/
def NoAdjWs (l : List Char) : Prop :=
  l.Chain' fun a b => isWsChar a = false ∨ isWsChar b = false

/-- Punctuation-free: every character is a word character or whitespace. -/
def PunctFree (l : List Char) : Prop :=
  ∀ c ∈ l, isWordChar c = true ∨ isWsChar c = true

/-! ## Data model

Times are milliseconds since the Unix epoch (`Nat`).  SQLite timestamps and
JS `Date` values (both UTC) are represented by that number; the calendar date
of a time is its day number `t / msPerDay`.
-/

/-- Milliseconds in one day. -/
def msPerDay : Nat := 24 * 60 * 60 * 1000

/-- The source constant `this.defaultCacheExpiration = 24 * 60 * 60 * 1000`. -/
def defaultCacheExpiration : Nat := 24 * 60 * 60 * 1000

/-- The source constant `this.memoryCacheSize = 100`. -/
def memoryCacheSize : Nat := 100

/-- A stored result payload.  The service treats the payload as an opaque
JSON value whose only inspected part is the `services` array; the model keeps
exactly that array (identifying each service by a number). -/
def Results : Type := List Nat

deriving instance DecidableEq, Repr for Results

/-- A serialized payload as stored in the `search_results` column.
`JSON.stringify`/`JSON.parse` are embedded abstractly: `json r` is the
well-formed serialization of the payload `r`, and `raw s` stands for any
stored blob that fails to deserialize (a corrupt entry). -/
inductive Blob where
  | json (r : Results)
  | raw (s : String)
deriving DecidableEq, Repr

/-- Embedding of `JSON.stringify(results)`. -/
def stringifyResults (r : Results) : Blob := .json r

/-- Embedding of `JSON.parse`, which throws on a corrupt blob: embedded as an
`Option`, `none` standing for the thrown exception. -/
def parseResults : Blob → Option Results
  | .json r => some r
  | .raw _ => none

/-- An entry of the in-memory tier (`this.memoryCache`): the parsed results
and the numeric expiry produced by the source
(`expires_at: new Date(...).getTime()`). -/
structure MemEntry where
  results : Results
  expires_at : Nat
deriving DecidableEq, Repr

/-- A row of the `search_cache` table.  `expires_at`, `created_at`,
`updated_at` and `last_accessed` columns hold timestamps, kept here as the
instant they denote (see `sqliteExpiresAfterNow` for how the stored textual
format is reflected in comparisons). -/
structure CacheRow where
  query_hash : String
  original_query : String
  normalized_query : String
  state : String
  city : String
  search_results : Blob
  expires_at : Nat
  hit_count : Nat
  created_at : Nat
  updated_at : Nat
  last_accessed : Nat
deriving DecidableEq, Repr

/-- A row of the `query_synonyms` table. -/
structure SynonymRow where
  base_query : String
  synonym_query : String
  confidence_score : ℚ
  is_active : Bool
deriving DecidableEq, Repr

/-- A row of the `cache_stats` table; `date` is the day number of the UTC
calendar date. -/
structure StatsRow where
  date : Nat
  total_requests : Nat
  cache_hits : Nat
  cache_misses : Nat
  api_calls_saved : Nat
  avg_response_time_ms : ℚ
deriving DecidableEq, Repr

/-- A row of the `popular_queries` table; `states_searched` is stored as a
serialized JSON array in the source, kept as the list itself here. -/
structure PopRow where
  normalized_query : String
  search_count : Nat
  avg_results : ℚ
  states_searched : List String
  last_searched : Nat
deriving DecidableEq, Repr

/-- The whole mutable state of the singleton `CacheService` plus its SQLite
database.  Two failure flags model the two distinct failure modes of the
persistent tier:
`dbError` — the handle exists but calls fail: the sqlite3 callbacks receive
an error, so the wrapping promises still resolve (to `null`, `false`, or an
error object);
`dbNull` — `this.db` is still `null` because `initialize` failed before the
handle was assigned (for example `fs.mkdirSync` threw; the server catches
this and keeps serving without a cache).  Then every promise executor throws
a TypeError on the null handle and the promise rejects; each caller's
try/catch or fire-and-forget call turns that into the same observable
no-op/miss as the callback-error case, except `getCacheStats`, whose
rejection reaches the health route's own catch (see `StatsOutcome`).
`memoryCache` is the JS `Map` as an insertion-ordered association list. -/
structure CacheState where
  memoryCache : List (String × MemEntry)
  search_cache : List CacheRow
  query_synonyms : List SynonymRow
  cache_stats : List StatsRow
  popular_queries : List PopRow
  isInitialized : Bool
  dbError : Bool
  dbNull : Bool
deriving DecidableEq, Repr

/-! ## JS `Map` operations (insertion-ordered association list) -/

/-- Embedding of `Map.prototype.has`. -/
def mapHas (m : List (String × MemEntry)) (k : String) : Bool :=
  m.any fun p => p.1 = k

/-- Embedding of `Map.prototype.get` (returning `undefined` as `none`). -/
def mapGet (m : List (String × MemEntry)) (k : String) : Option MemEntry :=
  (m.find? fun p => p.1 = k).map Prod.snd

/-- Embedding of `Map.prototype.delete`. -/
def mapDelete (m : List (String × MemEntry)) (k : String) :
    List (String × MemEntry) :=
  m.filter fun p => p.1 ≠ k

/-- Embedding of `Map.prototype.set`: an existing key keeps its position, a new key is
appended at the end (JS insertion-order semantics). -/
def mapSet (m : List (String × MemEntry)) (k : String) (v : MemEntry) :
    List (String × MemEntry) :=
  if mapHas m k then m.map fun p => if p.1 = k then (k, v) else p
  else m ++ [(k, v)]

/-! ## Key generation and synonym lookup -/

/-- JS `String.prototype.toLowerCase` on the ASCII range. -/
def jsLower (s : String) : String := ⟨s.data.map Char.toLower⟩

/-- Embedding of `CacheService.generateCacheKey`.  The source MD5-hashes the string
`normalizedQuery|state|city`; since the digest is used only for equality and
the design treats it as collision-free (spec: different logical inputs
essentially never collide), the model uses the preimage string itself as the
key, which has exactly the same equalities. -/
def generateCacheKey (query state city : String) : String :=
  normalizeQuery query ++ "|" ++ jsLower state ++ "|" ++ jsLower city

/-- Embedding of `CacheService.findSynonymQuery`: the single active row whose
`synonym_query` equals the whole normalized query, of maximal
`confidence_score`; errors resolve to `null`. -/
def findSynonymQuery (st : CacheState) (normalizedQuery : String) :
    Option String :=
  if st.dbError || st.dbNull then none
  else
    match st.query_synonyms.filter
        (fun r => r.synonym_query = normalizedQuery && r.is_active) with
    | [] => none
    | r :: rs =>
      some (rs.foldl
        (fun best x =>
          if best.confidence_score < x.confidence_score then x else best)
        r).base_query

/-! ## Persistent tier -/

/-- The SQL filter `expires_at > datetime(now)`.  The column holds the JS
`toISOString()` text `YYYY-MM-DDTHH:MM:SS.sssZ` while `datetime(now)` yields
`YYYY-MM-DD HH:MM:SS`; SQLite compares the two texts byte-wise.  The first
ten bytes are the calendar dates, and when those agree the eleventh byte
decides: `T` (0x54) is greater than the space (0x20), so the stored value
always wins.  Hence the comparison holds exactly when the UTC date of
`expires` is at least the UTC date of `now`. -/
def sqliteExpiresAfterNow (expires now : Nat) : Bool :=
  now / msPerDay ≤ expires / msPerDay

/-- Embedding of `CacheService.queryDatabase`: the row for the key that passes the expiry
filter; errors resolve to `null`. -/
def queryDatabase (st : CacheState) (now : Nat) (cacheKey : String) :
    Option CacheRow :=
  if st.dbError || st.dbNull then none
  else st.search_cache.find? fun r =>
    r.query_hash = cacheKey && sqliteExpiresAfterNow r.expires_at now

/-- Embedding of `CacheService.insertCacheEntry`: `INSERT OR REPLACE` into
`search_cache`.  Per the schema (appended in `backend/server.js`),
`query_hash` is `TEXT NOT NULL UNIQUE`, so the replace removes any previous
row for the same fingerprint, and `hit_count INTEGER DEFAULT 1` gives a
fresh row hit count 1 (the insert lists no `hit_count` column).  The
`REPLACE` is a delete-plus-insert, so the update trigger does not fire;
`created_at`/`updated_at`/`last_accessed` come from the statement's
`datetime(now)` values. -/
def insertCacheEntry (st : CacheState) (now : Nat)
    (cacheKey originalQuery normalizedQuery state city : String)
    (resultsJson : Blob) (expiresAt : Nat) : CacheState :=
  let row : CacheRow :=
    { query_hash := cacheKey
      original_query := originalQuery
      normalized_query := normalizedQuery
      state := state
      city := city
      search_results := resultsJson
      expires_at := expiresAt
      hit_count := 1
      created_at := now
      updated_at := now
      last_accessed := now }
  { st with search_cache :=
      (st.search_cache.filter fun r => r.query_hash ≠ cacheKey) ++ [row] }

/-- Embedding of `CacheService.updateHitCount`: bump `hit_count` and touch
`last_accessed` for the row of the given fingerprint (the source addresses
it by rowid; rows are keyed by the unique fingerprint here).  The schema's
`update_search_cache_timestamp` trigger fires on the update and also sets
`updated_at` to the current time.  Errors are swallowed. -/
def updateHitCount (st : CacheState) (now : Nat) (key : String) : CacheState :=
  if st.dbError || st.dbNull then st
  else
    { st with search_cache := st.search_cache.map fun r =>
        if r.query_hash = key then
          { r with hit_count := r.hit_count + 1, last_accessed := now,
                   updated_at := now }
        else r }

/-! ## Memory tier -/

/-- Embedding of `CacheService.addToMemoryCache`: when the tier is at (or beyond)
capacity, the earliest-inserted key is deleted, then the new binding is set. -/
def addToMemoryCache (m : List (String × MemEntry)) (key : String)
    (data : MemEntry) : List (String × MemEntry) :=
  let m1 :=
    if memoryCacheSize ≤ m.length then
      match m.head? with
      | some p => mapDelete m p.1
      | none => m
    else m
  mapSet m1 key data

/-! ## Statistics and popular queries -/

/-- Embedding of `CacheService.updateCacheStats`: upsert the row for the current UTC
calendar date; errors are swallowed, leaving the table unchanged. -/
def updateCacheStats (st : CacheState) (now : Nat) (wasHit : Bool)
    (responseTimeMs : ℚ) : CacheState :=
  if st.dbError || st.dbNull then st
  else
    let today := now / msPerDay
    match st.cache_stats.find? fun r => r.date = today with
    | some _ =>
      { st with cache_stats := st.cache_stats.map fun r =>
          if r.date = today then
            { r with
              total_requests := r.total_requests + 1
              cache_hits := r.cache_hits + (if wasHit then 1 else 0)
              cache_misses := r.cache_misses + (if wasHit then 0 else 1)
              api_calls_saved := r.api_calls_saved + (if wasHit then 1 else 0)
              avg_response_time_ms :=
                (r.avg_response_time_ms * r.total_requests + responseTimeMs) /
                  (r.total_requests + 1) }
          else r }
    | none =>
      { st with cache_stats := st.cache_stats ++
          [{ date := today
             total_requests := 1
             cache_hits := if wasHit then 1 else 0
             cache_misses := if wasHit then 0 else 1
             api_calls_saved := if wasHit then 1 else 0
             avg_response_time_ms := responseTimeMs }] }

/-- Embedding of `CacheService.updatePopularQuery`: upsert the row for the normalized
query; errors are swallowed. -/
def updatePopularQuery (st : CacheState) (now : Nat)
    (normalizedQuery state : String) (resultCount : Nat) : CacheState :=
  if st.dbError || st.dbNull then st
  else
    match st.popular_queries.find?
        (fun r => r.normalized_query = normalizedQuery) with
    | some row =>
      let states :=
        if row.states_searched.contains state then row.states_searched
        else row.states_searched ++ [state]
      { st with popular_queries := st.popular_queries.map fun r =>
          if r.normalized_query = normalizedQuery then
            { r with
              search_count := r.search_count + 1
              last_searched := now
              avg_results := (r.avg_results + resultCount) / 2
              states_searched := states }
          else r }
    | none =>
      { st with popular_queries := st.popular_queries ++
          [{ normalized_query := normalizedQuery
             search_count := 1
             avg_results := resultCount
             states_searched := [state]
             last_searched := now }] }

/-! ## Orchestrator: `getCachedResult` and `storeResult`

Both operations wrap their body in try/catch; every throw inside the body is
caught and turned into a miss (lookup) or a silent no-op (store), so they are
embedded as total functions.  `elapsed` is the measured response time
`Date.now() - startTime` handed to `updateCacheStats`.
-/

/-- The `dbResult` value of `getCachedResult`: the direct persistent-tier
query, retried once on a synonym-resolved fingerprint after a direct miss. -/
def dbLookupResult (st : CacheState) (now : Nat)
    (normalizedQuery cacheKey state city : String) : Option CacheRow :=
  match queryDatabase st now cacheKey with
  | some r => some r
  | none =>
    match findSynonymQuery st normalizedQuery with
    | some synonymQuery =>
      queryDatabase st now (generateCacheKey synonymQuery state city)
    | none => none

/-- The remainder of the database part of `getCachedResult` after the
`dbResult` value is known: hit-count bump, memory promotion and stats
update.  Deserialization failure of the stored payload throws, which the
outer catch converts into a miss (after the hit-count bump, which the source
awaits first). -/
def getFromDbPath (st : CacheState) (now : Nat)
    (normalizedQuery cacheKey state city : String) (elapsed : ℚ) :
    Option Results × CacheState :=
  match dbLookupResult st now normalizedQuery cacheKey state city with
  | some row =>
    let st1 := updateHitCount st now row.query_hash
    match parseResults row.search_results with
    | some res =>
      let st2 := { st1 with memoryCache :=
        (addToMemoryCache st1.memoryCache cacheKey
          { results := res, expires_at := row.expires_at }) }
      (some res, updateCacheStats st2 now true elapsed)
    | none => (none, updateCacheStats st1 now false elapsed)
  | none => (none, updateCacheStats st now false elapsed)

/-- Embedding of `CacheService.getCachedResult`: memory tier first (lazily discarding an
expired entry), then the persistent tier with synonym fallback. -/
def getCachedResult (st : CacheState) (now : Nat) (query state city : String)
    (elapsed : ℚ) : Option Results × CacheState :=
  if !st.isInitialized then (none, st)
  else
    let normalizedQuery := normalizeQuery query
    let cacheKey := generateCacheKey query state city
    match mapGet st.memoryCache cacheKey with
    | some cached =>
      if now < cached.expires_at then
        (some cached.results, updateCacheStats st now true elapsed)
      else
        let st1 := { st with memoryCache := mapDelete st.memoryCache cacheKey }
        getFromDbPath st1 now normalizedQuery cacheKey state city elapsed
    | none => getFromDbPath st now normalizedQuery cacheKey state city elapsed

/-- Embedding of `CacheService.storeResult`: write-through to the persistent tier, then
the memory tier, then the popular-query tracker.  A persistent-tier write
failure rejects `insertCacheEntry`, and the catch then skips the memory and
popular-query updates, so the whole call is a no-op. -/
def storeResult (st : CacheState) (now : Nat) (query state city : String)
    (results : Results) : CacheState :=
  if !st.isInitialized then st
  else
    let normalizedQuery := normalizeQuery query
    let cacheKey := generateCacheKey query state city
    let expiresAt := now + defaultCacheExpiration
    let resultsJson := stringifyResults results
    if st.dbError || st.dbNull then st
    else
      let st1 := insertCacheEntry st now cacheKey query normalizedQuery state
        city resultsJson expiresAt
      let st2 := { st1 with memoryCache :=
        (addToMemoryCache st1.memoryCache cacheKey
          { results := results, expires_at := expiresAt }) }
      updatePopularQuery st2 now normalizedQuery state results.length

/-! ## Maintenance and reporting -/

/-- Embedding of `CacheService.clearAllCache`: `DELETE FROM search_cache` only — the
memory tier is not touched; resolves `false` on a database error. -/
def clearAllCache (st : CacheState) : Bool × CacheState :=
  if st.dbError || st.dbNull then (false, st)
  else (true, { st with search_cache := [] })

/-- Embedding of `CacheService.clearExpiredEntries`: delete the rows failing the textual
expiry comparison (see `sqliteExpiresAfterNow`), returning the count. -/
def clearExpiredEntries (st : CacheState) (now : Nat) : Nat × CacheState :=
  if st.dbError || st.dbNull then (0, st)
  else
    let keep := st.search_cache.filter fun r =>
      sqliteExpiresAfterNow r.expires_at now
    (st.search_cache.length - keep.length, { st with search_cache := keep })

/-- JS `Number.prototype.toFixed(2)` on a nonnegative rational: round to two
decimal places (the claims evaluate it only where the double computation is
exact, so the rational rounding agrees with the source). -/
def toFixed2 (q : ℚ) : String :=
  let n : Nat := (q * 100 + 1 / 2).floor.toNat
  let ip := n / 100
  let fp := n % 100
  toString ip ++ "." ++ (if fp < 10 then "0" else "") ++ toString fp

/-- The `summary` object built by `CacheService.getCacheStats`.  In the
source, `hit_rate` is the number `0` when there were no requests; that value
is rendered as its decimal text here. -/
structure StatsSummary where
  total_requests : Nat
  cache_hits : Nat
  cache_misses : Nat
  hit_rate : String
  api_calls_saved : Nat
  avg_response_time_ms : String
  memory_cache_size : Nat
deriving DecidableEq, Repr

/-- The three ways a `getCacheStats()` call can come back to an awaiting
caller: the promise resolves with a summary, it resolves with a plain error
object (the `db.all` callback received an error), or it rejects because the
executor threw on a null database handle — only the last reaches the
caller's catch as an exception. -/
inductive StatsOutcome where
  | ok (summary : StatsSummary) (daily : List StatsRow)
  | errorObject
  | thrown
deriving DecidableEq, Repr

/-- Embedding of `CacheService.getCacheStats`: rows of the trailing `days`
window plus the summary; with the handle missing the promise rejects, and
with a callback error it resolves to an error object without a summary. -/
def getCacheStats (st : CacheState) (now : Nat) (days : Nat) : StatsOutcome :=
  if st.dbNull then .thrown
  else if st.dbError then .errorObject
  else
    let rows := st.cache_stats.filter fun r => now / msPerDay - days ≤ r.date
    let totalRequests := (rows.map StatsRow.total_requests).sum
    let totalHits := (rows.map StatsRow.cache_hits).sum
    let totalMisses := (rows.map StatsRow.cache_misses).sum
    let totalApiCallsSaved := (rows.map StatsRow.api_calls_saved).sum
    let avgResponseTime : ℚ :=
      if 0 < rows.length then
        (rows.map StatsRow.avg_response_time_ms).sum / rows.length
      else 0
    .ok
      { total_requests := totalRequests
        cache_hits := totalHits
        cache_misses := totalMisses
        hit_rate :=
          if 0 < totalRequests then
            toFixed2 ((totalHits : ℚ) / totalRequests * 100)
          else "0"
        api_calls_saved := totalApiCallsSaved
        avg_response_time_ms := toFixed2 avgResponseTime
        memory_cache_size := st.memoryCache.length }
      rows

/-- The fields of a stats outcome inspected by the C6 scenarios: hit rate,
api calls saved and total requests of the summary, when one was produced. -/
def statsProjection : StatsOutcome → Option (String × Nat × Nat)
  | .ok s _ => some (s.hit_rate, s.api_calls_saved, s.total_requests)
  | .errorObject => none
  | .thrown => none

/-! ## Cache health endpoint (`router.get(/health)` in
`backend/routes/search.js`) -/

/-- The possible `status` strings of the health report.  `error` comes from
the route's own catch, which fires exactly when the awaited
`getCacheStats(1)` rejects — the null-handle case; the callback-error case
resolves to a summary-less object and never reaches the catch. -/
inductive HealthStatus where
  | healthy
  | no_activity
  | error
deriving DecidableEq, Repr

/-- The health object assembled by the route.  The three metric fields are
absent (`undefined`) in the catch branch's response, hence the `Option`. -/
structure Health where
  status : HealthStatus
  cache_initialized : Bool
  memory_cache_size : Option Nat
  last_24h_requests : Option Nat
  hit_rate_24h : Option String
deriving DecidableEq, Repr

/-- The `/health` route handler: fetches `getCacheStats(1)` and derives the
status from `stats.summary && stats.summary.total_requests > 0`; with a
summary-less stats object the falsy branch applies and every metric falls
back to its default; when the await throws (null handle) the catch reports
status `error` with `cache_initialized` hard-coded to `false` and no metric
fields. -/
def healthHandler (st : CacheState) (now : Nat) : Health :=
  match getCacheStats st now 1 with
  | .ok summary _ =>
    { status :=
        if 0 < summary.total_requests then .healthy else .no_activity
      cache_initialized := st.isInitialized
      memory_cache_size := some summary.memory_cache_size
      last_24h_requests := some summary.total_requests
      hit_rate_24h := some summary.hit_rate }
  | .errorObject =>
    { status := .no_activity
      cache_initialized := st.isInitialized
      memory_cache_size := some 0
      last_24h_requests := some 0
      hit_rate_24h := some "0.00" }
  | .thrown =>
    { status := .error
      cache_initialized := false
      memory_cache_size := none
      last_24h_requests := none
      hit_rate_24h := none }

/-! ## Concrete scenario states

Small explicit states used to evaluate the operations on particular inputs:
a freshly initialized service, stores and hits, a synonym table, a corrupt
persistent row and an error state.
-/

/-- A freshly initialized service: both tiers empty, no synonyms, no stats. -/
def initState : CacheState :=
  { memoryCache := []
    search_cache := []
    query_synonyms := []
    cache_stats := []
    popular_queries := []
    isInitialized := true
    dbError := false
    dbNull := false }

/-- The service before `initialize` completed. -/
def uninitState : CacheState := { initState with isInitialized := false }

/-- An initialized service whose persistent tier fails every call. -/
def errorState : CacheState := { initState with dbError := true }

/-- The service after `initialize` failed before the database handle was
assigned (for example the database directory could not be created): the
server keeps serving without a cache, `this.db` is null, and every awaited
database call rejects. -/
def nullHandleState : CacheState :=
  { initState with isInitialized := false, dbNull := true }

/-- A service on its second day: yesterday's stats row (10 requests, all of
them hits) is on record, and there is no row for the current day. -/
def prevDayStatsState : CacheState :=
  { initState with cache_stats :=
      [{ date := 1
         total_requests := 10
         cache_hits := 10
         cache_misses := 0
         api_calls_saved := 10
         avg_response_time_ms := 0 }] }

/-- The state after storing the payload `[42]` for
`("passport", "Delhi", "Mumbai")` at time 0; its entry expires at
86400000 (24 hours). -/
def storedState : CacheState := storeResult initState 0 "passport" "Delhi" "Mumbai" [42]

/-- The synonym-table row mapping the phrasing `dl` to the base query
`driving license` with confidence 0.85, active. -/
def dlSynonymRow : SynonymRow :=
  { base_query := "driving license"
    synonym_query := "dl"
    confidence_score := (85 : ℚ) / 100
    is_active := true }

/-- An unexpired persistent row for `driving license renewal` in
Delhi/Delhi holding the payload `[7]`. -/
def dlRenewalRow : CacheRow :=
  { query_hash := generateCacheKey "driving license renewal" "Delhi" "Delhi"
    original_query := "driving license renewal"
    normalized_query := "driving license renewal"
    state := "Delhi"
    city := "Delhi"
    search_results := Blob.json [7]
    expires_at := 86400000
    hit_count := 1
    created_at := 0
    updated_at := 0
    last_accessed := 0 }

/-- The C3 scenario: active synonym mapping `dl -> driving license` and a
stored, unexpired entry for `driving license renewal` in Delhi/Delhi. -/
def dlState : CacheState :=
  { initState with
    query_synonyms := [dlSynonymRow]
    search_cache := [dlRenewalRow] }

/-- An unexpired persistent row for `("passport", "Delhi", "Mumbai")` with
`hit_count` 5, whose payload is also promoted into the memory tier. -/
def hitCountRow : CacheRow :=
  { query_hash := generateCacheKey "passport" "Delhi" "Mumbai"
    original_query := "passport"
    normalized_query := "passport"
    state := "Delhi"
    city := "Mumbai"
    search_results := Blob.json [42]
    expires_at := 86400000
    hit_count := 5
    created_at := 0
    updated_at := 0
    last_accessed := 0 }

/-- A state where the row `hitCountRow` is present in the persistent tier
and its payload also sits, unexpired, in the memory tier. -/
def promotedState : CacheState :=
  { initState with
    search_cache := [hitCountRow]
    memoryCache :=
      [(generateCacheKey "passport" "Delhi" "Mumbai",
        { results := [42], expires_at := 86400000 })] }

/-- A persistent row whose stored payload fails to deserialize. -/
def corruptRow : CacheRow :=
  { query_hash := generateCacheKey "passport" "Delhi" "Mumbai"
    original_query := "passport"
    normalized_query := "passport"
    state := "Delhi"
    city := "Mumbai"
    search_results := Blob.raw "garbage"
    expires_at := 86400000
    hit_count := 1
    created_at := 0
    updated_at := 0
    last_accessed := 0 }

/-- An initialized state whose only persistent row is corrupt. -/
def corruptState : CacheState := { initState with search_cache := [corruptRow] }

/-- A broken cache with traffic on record: the persistent tier errors on
every call, though 50 requests were served earlier today. -/
def brokenState : CacheState :=
  { initState with
    dbError := true
    cache_stats :=
      [{ date := 0
         total_requests := 50
         cache_hits := 40
         cache_misses := 10
         api_calls_saved := 40
         avg_response_time_ms := 12 }] }

/-- A memory tier holding 100 entries with the distinct keys "0" … "99". -/
def hundredEntryTier : List (String × MemEntry) :=
  (List.range 100).map fun i => (toString i, { results := [], expires_at := 0 })

/-! ## Theorems -/

/-! ### Helper lemmas on the memory-tier map -/

theorem mapHas_eq_false {m : List (String × MemEntry)} {k : String}
    (h : k ∉ m.map Prod.fst) : mapHas m k = false := by
  unfold mapHas
  rw [List.any_eq_false]
  intro p hp
  simp only [decide_eq_true_eq]
  intro heq
  exact h (List.mem_map.mpr ⟨p, hp, heq⟩)

theorem mapHas_eq_true {m : List (String × MemEntry)} {k : String}
    (h : k ∈ m.map Prod.fst) : mapHas m k = true := by
  unfold mapHas
  rw [List.any_eq_true]
  obtain ⟨p, hp, heq⟩ := List.mem_map.mp h
  exact ⟨p, hp, by simp [heq]⟩

theorem mapSet_of_not_mem {m : List (String × MemEntry)} {k : String}
    (v : MemEntry) (h : k ∉ m.map Prod.fst) : mapSet m k v = m ++ [(k, v)] := by
  unfold mapSet
  rw [mapHas_eq_false h]
  simp

theorem length_mapSet_le (m : List (String × MemEntry)) (k : String)
    (v : MemEntry) : (mapSet m k v).length ≤ m.length + 1 := by
  unfold mapSet
  split
  · simp
  · simp

theorem length_mapSet_of_mem {m : List (String × MemEntry)} {k : String}
    (v : MemEntry) (h : k ∈ m.map Prod.fst) :
    (mapSet m k v).length = m.length := by
  unfold mapSet
  rw [mapHas_eq_true h]
  simp

theorem filter_ne_eq_self {rest : List (String × MemEntry)} {k : String}
    (h : k ∉ rest.map Prod.fst) : (rest.filter fun p => p.1 ≠ k) = rest := by
  rw [List.filter_eq_self]
  intro p hp
  simp only [decide_eq_true_eq]
  intro heq
  exact h (List.mem_map.mpr ⟨p, hp, heq⟩)

theorem mapDelete_cons_self {k0 : String} {v0 : MemEntry}
    {rest : List (String × MemEntry)} (h : k0 ∉ rest.map Prod.fst) :
    mapDelete ((k0, v0) :: rest) k0 = rest := by
  unfold mapDelete
  rw [List.filter_cons]
  have hc : (decide ((k0, v0).1 ≠ k0)) = false := by simp
  simp only [hc, Bool.false_eq_true, if_false]
  exact filter_ne_eq_self h

/-! ### Helper lemmas on the state operations -/

theorem updateCacheStats_of_dbError {st : CacheState} (now : Nat) (b : Bool)
    (e : ℚ) (h : st.dbError = true) : updateCacheStats st now b e = st := by
  unfold updateCacheStats
  rw [h]
  simp

theorem updateCacheStats_search_cache (st : CacheState) (now : Nat) (b : Bool)
    (e : ℚ) : (updateCacheStats st now b e).search_cache = st.search_cache := by
  unfold updateCacheStats
  split
  · rfl
  · dsimp only
    split <;> rfl

theorem updateCacheStats_dbError (st : CacheState) (now : Nat) (b : Bool)
    (e : ℚ) : (updateCacheStats st now b e).dbError = st.dbError := by
  unfold updateCacheStats
  split
  · rfl
  · dsimp only
    split <;> rfl

theorem updateCacheStats_dbNull (st : CacheState) (now : Nat) (b : Bool)
    (e : ℚ) : (updateCacheStats st now b e).dbNull = st.dbNull := by
  unfold updateCacheStats
  split
  · rfl
  · dsimp only
    split <;> rfl

theorem updateCacheStats_memoryCache (st : CacheState) (now : Nat) (b : Bool)
    (e : ℚ) : (updateCacheStats st now b e).memoryCache = st.memoryCache := by
  unfold updateCacheStats
  split
  · rfl
  · dsimp only
    split <;> rfl

theorem queryDatabase_dbError_eq_false {st : CacheState} {now : Nat}
    {k : String} {row : CacheRow} (h : queryDatabase st now k = some row) :
    st.dbError = false := by
  cases hdb : st.dbError
  · rfl
  · unfold queryDatabase at h
    rw [hdb] at h
    simp at h

theorem queryDatabase_dbNull_eq_false {st : CacheState} {now : Nat}
    {k : String} {row : CacheRow} (h : queryDatabase st now k = some row) :
    st.dbNull = false := by
  cases hdb : st.dbNull
  · rfl
  · unfold queryDatabase at h
    rw [hdb] at h
    simp at h

theorem dbLookupResult_of_dbError {st : CacheState} (now : Nat)
    (nq key s c : String) (h : st.dbError = true) :
    dbLookupResult st now nq key s c = none := by
  simp [dbLookupResult, queryDatabase, findSynonymQuery, h]

theorem getCachedResult_of_not_init {st : CacheState} (now : Nat)
    (q s c : String) (e : ℚ) (h : st.isInitialized = false) :
    getCachedResult st now q s c e = (none, st) := by
  unfold getCachedResult
  rw [h]
  rfl

theorem getCachedResult_mem_hit {st : CacheState} {now : Nat} {q s c : String}
    (e : ℚ) {en : MemEntry} (hinit : st.isInitialized = true)
    (hmem : mapGet st.memoryCache (generateCacheKey q s c) = some en)
    (hexp : now < en.expires_at) :
    getCachedResult st now q s c e =
      (some en.results, updateCacheStats st now true e) := by
  unfold getCachedResult
  rw [hinit]
  simp only [Bool.not_true, Bool.false_eq_true, if_false, hmem, if_pos hexp]

theorem getCachedResult_mem_none {st : CacheState} {now : Nat} {q s c : String}
    (e : ℚ) (hinit : st.isInitialized = true)
    (hmem : mapGet st.memoryCache (generateCacheKey q s c) = none) :
    getCachedResult st now q s c e =
      getFromDbPath st now (normalizeQuery q) (generateCacheKey q s c) s c e := by
  unfold getCachedResult
  rw [hinit]
  simp only [Bool.not_true, Bool.false_eq_true, if_false, hmem]

theorem storeResult_of_not_init {st : CacheState} (now : Nat) (q s c : String)
    (R : Results) (h : st.isInitialized = false) :
    storeResult st now q s c R = st := by
  unfold storeResult
  rw [h]
  rfl

theorem storeResult_of_dbError {st : CacheState} (now : Nat) (q s c : String)
    (R : Results) (hinit : st.isInitialized = true) (h : st.dbError = true) :
    storeResult st now q s c R = st := by
  unfold storeResult
  rw [hinit, h]
  simp

/-- Claim C1.  The stored entry for `("passport", "Delhi", "Mumbai")` expires
at 86400000, yet a lookup at 90000000 — one hour past expiry, same UTC day —
still returns the payload: the persistent tier compares the ISO-format
`expires_at` text with the `datetime(now)` text, which only takes effect at
whole-day granularity, so the code contradicts the claimed behaviour of
returning `absent` at any time after `expires_at`. -/
theorem C1_lookup_after_expiry_still_hits :
    storedState.search_cache.map CacheRow.expires_at = [86400000] ∧
    86400000 < 90000000 ∧
    (getCachedResult storedState 90000000 "passport" "Delhi" "Mumbai" 0).1 =
      some [42] := by
  refine ⟨by decide, by decide, by decide⟩

/-- Claim C2.  After `clearAllCache` succeeds (persistent tier emptied), a
lookup of the previously stored key still returns the stored payload from
the memory tier, contradicting the claim that every previously stored key —
including memory-promoted ones — reads back as `absent`. -/
theorem C2_lookup_after_clearAll_still_hits :
    (clearAllCache storedState).1 = true ∧
    (clearAllCache storedState).2.search_cache = [] ∧
    (getCachedResult (clearAllCache storedState).2 100 "passport" "Delhi"
      "Mumbai" 0).1 = some [42] := by
  refine ⟨by decide, by decide, by decide⟩

/-- Claim C3.  With the active `dl -> driving license` mapping (confidence
0.85) and a live entry for `driving license renewal` in Delhi/Delhi, the
lookup of `dl renewal` misses: `findSynonymQuery` only matches a synonym row
whose `synonym_query` equals the whole normalized query (`dl renewal`), so
the mapping for `dl` is never consulted and no synonym resolution happens,
contradicting the claim (and the repository's own walkthrough document). -/
theorem C3_dl_renewal_lookup_misses :
    queryDatabase dlState 100
      (generateCacheKey "driving license renewal" "Delhi" "Delhi") =
        some dlRenewalRow ∧
    findSynonymQuery dlState (normalizeQuery "dl renewal") = none ∧
    (getCachedResult dlState 100 "dl renewal" "Delhi" "Delhi" 0).1 = none := by
  refine ⟨by decide, by decide, by decide⟩

/-- Claim C5.  Inserting a new distinct key into a memory tier holding
exactly 100 entries evicts exactly the earliest-inserted entry: the result
is the old tier minus its first binding plus the new binding appended, and
its size is again 100. -/
theorem C5_insert_at_capacity_evicts_first (k0 : String) (v0 : MemEntry)
    (rest : List (String × MemEntry)) (k : String) (v : MemEntry)
    (hnd : (((k0, v0) :: rest).map Prod.fst).Nodup)
    (hlen : ((k0, v0) :: rest).length = 100)
    (hk : k ∉ ((k0, v0) :: rest).map Prod.fst) :
    addToMemoryCache ((k0, v0) :: rest) k v = rest ++ [(k, v)] ∧
    (addToMemoryCache ((k0, v0) :: rest) k v).length = 100 := by
  have hk0 : k0 ∉ rest.map Prod.fst := by
    simp only [List.map_cons, List.nodup_cons] at hnd
    exact hnd.1
  have hkrest : k ∉ rest.map Prod.fst := by
    intro hmem
    exact hk (by simp [hmem])
  have hcap : memoryCacheSize ≤ ((k0, v0) :: rest).length := by
    rw [hlen]; norm_num [memoryCacheSize]
  have hmain : addToMemoryCache ((k0, v0) :: rest) k v = rest ++ [(k, v)] := by
    unfold addToMemoryCache
    rw [if_pos hcap]
    show mapSet (mapDelete ((k0, v0) :: rest) (k0, v0).1) k v = rest ++ [(k, v)]
    rw [show (k0, v0).1 = k0 from rfl, mapDelete_cons_self hk0,
      mapSet_of_not_mem v hkrest]
  refine ⟨hmain, ?_⟩
  rw [hmain]
  simp only [List.length_append, List.length_cons, List.length_nil] at hlen ⊢
  omega

/-- Witness for C5 on a concrete 100-entry tier with keys "0" … "99". -/
theorem C5_insert_at_capacity_evicts_first_witness :
    addToMemoryCache (("0", ⟨[], 0⟩) :: hundredEntryTier.tail) "fresh"
        ⟨[], 0⟩ = hundredEntryTier.tail ++ [("fresh", ⟨[], 0⟩)] ∧
    (addToMemoryCache (("0", ⟨[], 0⟩) :: hundredEntryTier.tail) "fresh"
        ⟨[], 0⟩).length = 100 :=
  C5_insert_at_capacity_evicts_first "0" ⟨[], 0⟩ hundredEntryTier.tail "fresh"
    ⟨[], 0⟩ (by decide) (by decide) (by decide)

/-- When no stats row carries the current date, `updateCacheStats` appends a
fresh row for the current day. -/
theorem updateCacheStats_insert {st : CacheState} (now : Nat) (b : Bool)
    (r : ℚ) (herr : st.dbError = false) (hnull : st.dbNull = false)
    (hnone : ∀ x ∈ st.cache_stats, x.date ≠ now / msPerDay) :
    updateCacheStats st now b r =
      { st with cache_stats := st.cache_stats ++
          [⟨now / msPerDay, 1, if b then 1 else 0, if b then 0 else 1,
            if b then 1 else 0, r⟩] } := by
  have hfind : (st.cache_stats.find? fun x => x.date = now / msPerDay) =
      none := by
    rw [List.find?_eq_none]
    intro x hx
    simp [hnone x hx]
  unfold updateCacheStats
  rw [herr, hnull]
  simp only [Bool.or_self, Bool.false_eq_true, if_false, hfind]

/-- When the stats table is some off-day rows followed by the current day's
row, `updateCacheStats` leaves the off-day rows alone and bumps the current
day's row in place. -/
theorem updateCacheStats_found {st : CacheState} {old : List StatsRow}
    {n h mi sv : Nat} {a : ℚ} (now : Nat) (b : Bool) (r : ℚ)
    (herr : st.dbError = false) (hnull : st.dbNull = false)
    (hrow : st.cache_stats = old ++ [⟨now / msPerDay, n, h, mi, sv, a⟩])
    (hold : ∀ x ∈ old, x.date ≠ now / msPerDay) :
    (updateCacheStats st now b r).cache_stats =
      old ++ [⟨now / msPerDay, n + 1, h + (if b then 1 else 0),
        mi + (if b then 0 else 1), sv + (if b then 1 else 0),
        (a * n + r) / (n + 1)⟩] := by
  have hnone : (old.find? fun x => x.date = now / msPerDay) = none := by
    rw [List.find?_eq_none]
    intro x hx
    simp [hold x hx]
  unfold updateCacheStats
  rw [herr, hnull]
  simp only [Bool.or_self, Bool.false_eq_true, if_false, hrow]
  rw [List.find?_append, hnone, Option.none_or,
    List.find?_cons_of_pos _ (by simp)]
  dsimp only
  rw [List.map_append]
  congr 1
  · exact (List.map_congr_left fun x hx => if_neg (hold x hx)).trans
      (List.map_id _)
  · simp

/-- Helper for C6: folding recorded lookup outcomes over a state whose
stats table holds only off-day rows followed by the current day's row
accumulates the current day's counters: totals rise by the number of
outcomes, hits and saved api calls by the number of hits, and the off-day
rows are untouched. -/
theorem foldStats_today_row (now : Nat) (l : List (Bool × ℚ)) :
    ∀ (st : CacheState) (old : List StatsRow) (n h mi sv : Nat) (a : ℚ),
      st.dbError = false → st.dbNull = false →
      st.cache_stats = old ++ [⟨now / msPerDay, n, h, mi, sv, a⟩] →
      (∀ x ∈ old, x.date ≠ now / msPerDay) →
      ∃ (mi' : Nat) (a' : ℚ),
        (l.foldl (fun s p => updateCacheStats s now p.1 p.2) st).cache_stats =
          old ++ [⟨now / msPerDay, n + l.length,
            h + l.countP (fun p => p.1), mi',
            sv + l.countP (fun p => p.1), a'⟩] ∧
        (l.foldl (fun s p => updateCacheStats s now p.1 p.2) st).dbError =
          false ∧
        (l.foldl (fun s p => updateCacheStats s now p.1 p.2) st).dbNull =
          false := by
  induction l with
  | nil =>
    intro st old n h mi sv a herr hnull hrow hold
    refine ⟨mi, a, ?_, herr, hnull⟩
    simpa using hrow
  | cons p t ih =>
    obtain ⟨b, r⟩ := p
    intro st old n h mi sv a herr hnull hrow hold
    have hstep := updateCacheStats_found now b r herr hnull hrow hold
    have hstepdb : (updateCacheStats st now b r).dbError = false := by
      rw [updateCacheStats_dbError, herr]
    have hstepnull : (updateCacheStats st now b r).dbNull = false := by
      rw [updateCacheStats_dbNull, hnull]
    obtain ⟨mi', a', hc, hdb, hnl⟩ := ih (updateCacheStats st now b r) old
      (n + 1) (h + (if b then 1 else 0)) (mi + (if b then 0 else 1))
      (sv + (if b then 1 else 0)) ((a * n + r) / (n + 1)) hstepdb hstepnull
      hstep hold
    refine ⟨mi', a', ?_, hdb, hnl⟩
    rw [List.foldl_cons]
    dsimp only
    rw [hc]
    have e1 : n + 1 + t.length = n + ((b, r) :: t).length := by
      simp only [List.length_cons]
      omega
    have e2 : ∀ x : Nat, x + (if b then 1 else 0) +
        t.countP (fun p => p.1) =
        x + ((b, r) :: t).countP (fun p => p.1) := by
      intro x
      simp only [List.countP_cons]
      cases b <;> simp <;> omega
    rw [e1, e2 h, e2 sv]

/-- Claim C6, counterexample.  The frozen precondition — no daily-stats row
for the *current* calendar day — is not strong enough: `getCacheStats 1`
filters `date >= date(now, -1 days)`, a two-day window that also covers the
previous day.  One day after an all-hit day of 10 requests (so the stats
table holds only yesterday's row and no row for the current day, as the
claim allows), recording 10 lookups with 7 hits yields
`hit_rate = "85.00"` and `api_calls_saved = 17` (over 20 requests) — not
the claimed `"70.00"` and `7`. -/
theorem C6_previous_day_row_changes_rate :
    (∀ x ∈ prevDayStatsState.cache_stats, x.date ≠ 172800000 / msPerDay) ∧
    statsProjection (getCacheStats
      ([((true : Bool), (1 : ℚ)), (true, 1), (false, 1), (true, 1), (true, 1),
        (false, 1), (true, 1), (true, 1), (false, 1), (true, 1)].foldl
          (fun s p => updateCacheStats s 172800000 p.1 p.2) prevDayStatsState)
      172800000 1) = some ("85.00", 17, 20) := by
  refine ⟨by decide, ?_⟩
  have herr : prevDayStatsState.dbError = false := rfl
  have hnull : prevDayStatsState.dbNull = false := rfl
  have hold : ∀ x ∈ ([⟨1, 10, 10, 0, 10, 0⟩] : List StatsRow),
      x.date ≠ 172800000 / msPerDay := by decide
  have hins := updateCacheStats_insert 172800000 true (1 : ℚ) herr hnull
    (by decide)
  have hstep : (updateCacheStats prevDayStatsState 172800000 true
      1).cache_stats =
      ([⟨1, 10, 10, 0, 10, 0⟩] : List StatsRow) ++
        [⟨172800000 / msPerDay, 1, 1, 0, 1, 1⟩] := by
    rw [hins]
    rfl
  have hstepdb : (updateCacheStats prevDayStatsState 172800000 true
      1).dbError = false := by
    rw [updateCacheStats_dbError]
    exact herr
  have hstepnull : (updateCacheStats prevDayStatsState 172800000 true
      1).dbNull = false := by
    rw [updateCacheStats_dbNull]
    exact hnull
  obtain ⟨mi', a', hc, hdbf, hnlf⟩ := foldStats_today_row 172800000
    [((true : Bool), (1 : ℚ)), (false, 1), (true, 1), (true, 1), (false, 1),
      (true, 1), (true, 1), (false, 1), (true, 1)]
    (updateCacheStats prevDayStatsState 172800000 true 1)
    [⟨1, 10, 10, 0, 10, 0⟩] 1 1 0 1 1 hstepdb hstepnull hstep hold
  have hrow : ([((true : Bool), (1 : ℚ)), (false, 1), (true, 1), (true, 1),
      (false, 1), (true, 1), (true, 1), (false, 1), (true, 1)].foldl
        (fun s p => updateCacheStats s 172800000 p.1 p.2)
        (updateCacheStats prevDayStatsState 172800000 true 1)).cache_stats =
      ([⟨1, 10, 10, 0, 10, 0⟩] : List StatsRow) ++
        [⟨172800000 / msPerDay, 10, 7, mi', 7, a'⟩] := by
    rw [hc]
    rfl
  have hall : ∀ x ∈ ([⟨1, 10, 10, 0, 10, 0⟩,
      ⟨172800000 / msPerDay, 10, 7, mi', 7, a'⟩] : List StatsRow),
      (decide (172800000 / msPerDay - 1 ≤ x.date)) = true := by
    intro x hx
    rcases List.mem_cons.mp hx with h | hx2
    · subst h
      decide
    · have h := List.mem_singleton.mp hx2
      subst h
      show decide (172800000 / msPerDay - 1 ≤ 172800000 / msPerDay) = true
      decide
  rw [List.foldl_cons]
  dsimp only
  unfold getCacheStats
  rw [hnlf, hdbf]
  simp only [Bool.false_eq_true, if_false]
  rw [hrow, List.singleton_append, List.filter_eq_self.mpr hall]
  simp only [statsProjection, List.map_cons, List.map_nil, List.sum_cons,
    List.sum_nil]
  norm_num
  have h85 : ((85 : ℚ) * 100 + 1 / 2).floor = 8500 := by
    have hb : ((85 : ℚ) * 100 + 1 / 2).floor = ⌊(85 : ℚ) * 100 + 1 / 2⌋ := by
      rw [Rat.floor_def', ← Rat.floor_def]
    rw [hb, Int.floor_eq_iff]
    constructor <;> norm_num
  simp only [toFixed2, h85]
  decide

/-- Claim C6, amended.  Recording any sequence of 10 lookup outcomes with 7
hits on one calendar day makes `getCacheStats 1` report
`hit_rate = "70.00"` and `api_calls_saved = 7` (over 10 requests) —
provided every pre-existing daily-stats row is dated strictly before the
two-day window that `getCacheStats 1` reads (`date >= date(now, -1 days)`
covers the previous day as well as the current one).  The frozen claim only
excludes current-day rows; the counterexample theorem shows a previous-day
row changes the reported figures, so the stronger window hypothesis is
necessary. -/
theorem C6_stats_seventy_percent_empty_window (st : CacheState) (now : Nat)
    (l : List (Bool × ℚ)) (herr : st.dbError = false)
    (hnull : st.dbNull = false)
    (hwin : ∀ x ∈ st.cache_stats, x.date < now / msPerDay - 1)
    (hlen : l.length = 10) (hcnt : l.countP (fun p => p.1) = 7) :
    statsProjection (getCacheStats
      (l.foldl (fun s p => updateCacheStats s now p.1 p.2) st) now 1) =
      some ("70.00", 7, 10) := by
  cases l with
  | nil => simp at hlen
  | cons p t =>
    obtain ⟨b, r⟩ := p
    have hold : ∀ x ∈ st.cache_stats, x.date ≠ now / msPerDay := by
      intro x hx
      have := hwin x hx
      omega
    have hins := updateCacheStats_insert now b r herr hnull hold
    have hstep : (updateCacheStats st now b r).cache_stats =
        st.cache_stats ++ [⟨now / msPerDay, 1, if b then 1 else 0,
          if b then 0 else 1, if b then 1 else 0, r⟩] := by
      rw [hins]
    have hstepdb : (updateCacheStats st now b r).dbError = false := by
      rw [updateCacheStats_dbError, herr]
    have hstepnull : (updateCacheStats st now b r).dbNull = false := by
      rw [updateCacheStats_dbNull, hnull]
    obtain ⟨mi', a', hc, hdbf, hnlf⟩ := foldStats_today_row now t
      (updateCacheStats st now b r) st.cache_stats 1 (if b then 1 else 0)
      (if b then 0 else 1) (if b then 1 else 0) r hstepdb hstepnull hstep
      hold
    rw [List.foldl_cons]
    dsimp only
    have hlen' : t.length = 9 := by
      simp only [List.length_cons] at hlen
      omega
    have hcnt' : (if b then 1 else 0) + t.countP (fun p => p.1) = 7 := by
      simp only [List.countP_cons] at hcnt
      cases b <;> simp at hcnt ⊢ <;> omega
    have h10 : 1 + t.length = 10 := by omega
    have hrow : (t.foldl (fun s p => updateCacheStats s now p.1 p.2)
        (updateCacheStats st now b r)).cache_stats =
        st.cache_stats ++ [⟨now / msPerDay, 10, 7, mi', 7, a'⟩] := by
      rw [hc, h10, hcnt']
    unfold getCacheStats
    rw [hnlf, hdbf]
    simp only [Bool.false_eq_true, if_false]
    rw [hrow, List.filter_append]
    have hfe : st.cache_stats.filter
        (fun x => decide (now / msPerDay - 1 ≤ x.date)) = [] := by
      rw [List.filter_eq_nil_iff]
      intro x hx
      have := hwin x hx
      simp only [decide_eq_true_eq]
      omega
    rw [hfe, List.filter_cons_of_pos (by simp [Nat.sub_le]),
      List.filter_nil, List.nil_append]
    simp only [statsProjection, List.map_cons, List.map_nil, List.sum_cons,
      List.sum_nil]
    norm_num
    have h70 : ((70 : ℚ) * 100 + 1 / 2).floor = 7000 := by
      have hb : ((70 : ℚ) * 100 + 1 / 2).floor = ⌊(70 : ℚ) * 100 + 1 / 2⌋ := by
        rw [Rat.floor_def', ← Rat.floor_def]
      rw [hb, Int.floor_eq_iff]
      constructor <;> norm_num
    simp only [toFixed2, h70]
    decide

/-- Witness for C6, amended: a concrete day of 10 lookups, hits and misses
interleaved, starting from the freshly initialized service. -/
theorem C6_stats_seventy_percent_empty_window_witness :
    statsProjection (getCacheStats
      ([((true : Bool), (1 : ℚ)), (true, 2), (false, 3), (true, 4), (true, 5),
        (false, 6), (true, 7), (true, 8), (false, 9), (true, 10)].foldl
          (fun s p => updateCacheStats s 5000 p.1 p.2) initState) 5000 1) =
      some ("70.00", 7, 10) :=
  C6_stats_seventy_percent_empty_window initState 5000
    [((true : Bool), (1 : ℚ)), (true, 2), (false, 3), (true, 4), (true, 5),
      (false, 6), (true, 7), (true, 8), (false, 9), (true, 10)]
    (by decide) (by decide) (by decide) (by decide) (by decide)

/-- Claim C7.  The lookup and store operations fail open: with the service
uninitialized both are identity no-ops returning a miss; with a failing
persistent tier (and no unexpired memory copy) the lookup is a plain miss
that leaves the state untouched and the store is a no-op; and a stored
payload that fails to deserialize is reported as a miss rather than an
exception.  (Exceptions themselves are embedded as values: both operations
are total functions, so no call can propagate a throw.) -/
theorem C7_fail_open :
    (∀ (st : CacheState) (now : Nat) (q s c : String) (R : Results) (e : ℚ),
      st.isInitialized = false →
        getCachedResult st now q s c e = (none, st) ∧
        storeResult st now q s c R = st) ∧
    (∀ (st : CacheState) (now : Nat) (q s c : String) (R : Results) (e : ℚ),
      st.isInitialized = true → st.dbError = true →
      mapGet st.memoryCache (generateCacheKey q s c) = none →
        getCachedResult st now q s c e = (none, st) ∧
        storeResult st now q s c R = st) ∧
    (∀ (st : CacheState) (now : Nat) (q s c : String) (e : ℚ)
        (row : CacheRow),
      st.isInitialized = true →
      mapGet st.memoryCache (generateCacheKey q s c) = none →
      dbLookupResult st now (normalizeQuery q) (generateCacheKey q s c) s c =
        some row →
      parseResults row.search_results = none →
        (getCachedResult st now q s c e).1 = none) := by
  refine ⟨?_, ?_, ?_⟩
  · intro st now q s c R e h
    exact ⟨getCachedResult_of_not_init now q s c e h,
      storeResult_of_not_init now q s c R h⟩
  · intro st now q s c R e hinit herr hmem
    refine ⟨?_, storeResult_of_dbError now q s c R hinit herr⟩
    rw [getCachedResult_mem_none e hinit hmem]
    unfold getFromDbPath
    rw [dbLookupResult_of_dbError now (normalizeQuery q)
      (generateCacheKey q s c) s c herr]
    rw [updateCacheStats_of_dbError now false e herr]
  · intro st now q s c e row hinit hmem hdb hparse
    rw [getCachedResult_mem_none e hinit hmem]
    unfold getFromDbPath
    rw [hdb]
    dsimp only
    rw [hparse]

/-- Witness for C7: the three failure modes at concrete states — the
uninitialized service, the initialized service with a failing persistent
tier, and the service holding one corrupt persistent row. -/
theorem C7_fail_open_witness :
    (getCachedResult uninitState 5 "passport" "Delhi" "Mumbai" 0 =
      (none, uninitState) ∧
     storeResult uninitState 5 "passport" "Delhi" "Mumbai" [42] =
      uninitState) ∧
    (getCachedResult errorState 5 "passport" "Delhi" "Mumbai" 0 =
      (none, errorState) ∧
     storeResult errorState 5 "passport" "Delhi" "Mumbai" [42] =
      errorState) ∧
    (getCachedResult corruptState 100 "passport" "Delhi" "Mumbai" 0).1 =
      none :=
  ⟨C7_fail_open.1 uninitState 5 "passport" "Delhi" "Mumbai" [42] 0 (by decide),
   C7_fail_open.2.1 errorState 5 "passport" "Delhi" "Mumbai" [42] 0
     (by decide) (by decide) (by decide),
   C7_fail_open.2.2 corruptState 100 "passport" "Delhi" "Mumbai" 0 corruptRow
     (by decide) (by decide) (by decide) (by decide)⟩

/-- Claim C8, counterexample.  A broken cache (persistent tier failing on
every call, 50 requests on record today) reports the very same health status
`no_activity` as a cold, fully healthy cache with no traffic — the status is
not distinct from the cold-cache status. -/
theorem C8_broken_reports_no_activity :
    brokenState.dbError = true ∧
    (healthHandler brokenState 5000).status = HealthStatus.no_activity ∧
    initState.dbError = false ∧ initState.cache_stats = [] ∧
    (healthHandler initState 5000).status = HealthStatus.no_activity := by
  refine ⟨by decide, by decide, by decide, by decide, by decide⟩

/-- Claim C8, amended.  Health singles out exactly one failure mode: when
initialization failed before the database handle existed, the awaited stats
read rejects and the route's catch reports the distinct status `error`,
with `cache_initialized` hard-coded to `false` and no metric fields.  Every
other degradation is not distinct: with the handle present, a
persistent-tier error resolves `getCacheStats` to a summary-less object and
the handler reports `no_activity` with zeroed metrics — exactly the
cold-cache status (see the counterexample theorem). -/
theorem C8_null_handle_is_the_only_degraded_status (st : CacheState)
    (now : Nat) :
    (st.dbNull = true →
      (healthHandler st now).status = HealthStatus.error ∧
      (healthHandler st now).cache_initialized = false) ∧
    (st.dbNull = false → st.dbError = true →
      (healthHandler st now).status = HealthStatus.no_activity ∧
      (healthHandler st now).cache_initialized = st.isInitialized ∧
      (healthHandler st now).last_24h_requests = some 0) := by
  constructor
  · intro hn
    have hs : getCacheStats st now 1 = .thrown := by
      unfold getCacheStats
      rw [hn]
      rfl
    unfold healthHandler
    rw [hs]
    exact ⟨rfl, rfl⟩
  · intro hn he
    have hs : getCacheStats st now 1 = .errorObject := by
      unfold getCacheStats
      rw [hn, he]
      rfl
    unfold healthHandler
    rw [hs]
    exact ⟨rfl, rfl, rfl⟩

/-- Witness for C8, amended: the failed-before-handle state reports the
distinct status `error`, while the broken-but-initialized state reports
plain `no_activity` with zeroed requests. -/
theorem C8_null_handle_is_the_only_degraded_status_witness :
    ((healthHandler nullHandleState 5000).status = HealthStatus.error ∧
     (healthHandler nullHandleState 5000).cache_initialized = false) ∧
    ((healthHandler brokenState 5000).status = HealthStatus.no_activity ∧
     (healthHandler brokenState 5000).cache_initialized =
       brokenState.isInitialized ∧
     (healthHandler brokenState 5000).last_24h_requests = some 0) :=
  ⟨(C8_null_handle_is_the_only_degraded_status nullHandleState 5000).1
     (by decide),
   (C8_null_handle_is_the_only_degraded_status brokenState 5000).2
     (by decide) (by decide)⟩

/-- Claim C9, counterexample.  A lookup served from the memory tier is a
hit (it returns the stored payload), yet the persistent entry keeps
`hit_count` 5 and `last_accessed` 0: memory-tier hits never touch the
persistent row, contradicting the claim that every hit increments it. -/
theorem C9_memory_hit_skips_hit_count :
    (getCachedResult promotedState 100 "passport" "Delhi" "Mumbai" 0).1 =
      some [42] ∧
    (getCachedResult promotedState 100 "passport" "Delhi" "Mumbai"
      0).2.search_cache.map CacheRow.hit_count = [5] ∧
    (getCachedResult promotedState 100 "passport" "Delhi" "Mumbai"
      0).2.search_cache.map CacheRow.last_accessed = [0] := by
  refine ⟨by decide, by decide, by decide⟩

/-- Claim C9, amended.  On every lookup that finds a row in the persistent
tier — directly or through synonym resolution, and even if the payload then
fails to deserialize — that row's `hit_count` is incremented by one and its
`last_accessed` (with `updated_at`, via the schema's `AFTER UPDATE`
trigger) is set to the lookup time; hits served from the memory tier leave
the persistent tier untouched (see the counterexample theorem). -/
theorem C9_persistent_hit_bumps_hit_count (st : CacheState) (now : Nat)
    (q s c : String) (e : ℚ) (row : CacheRow)
    (hinit : st.isInitialized = true)
    (hmem : mapGet st.memoryCache (generateCacheKey q s c) = none)
    (hdb : dbLookupResult st now (normalizeQuery q) (generateCacheKey q s c)
      s c = some row) :
    (getCachedResult st now q s c e).2.search_cache =
      st.search_cache.map fun r =>
        if r.query_hash = row.query_hash then
          { r with hit_count := r.hit_count + 1, last_accessed := now,
                   updated_at := now }
        else r := by
  have herr : st.dbError = false := by
    unfold dbLookupResult at hdb
    cases hq : queryDatabase st now (generateCacheKey q s c) with
    | some r => exact queryDatabase_dbError_eq_false hq
    | none =>
      rw [hq] at hdb
      cases hs : findSynonymQuery st (normalizeQuery q) with
      | none => rw [hs] at hdb; exact absurd hdb (by simp)
      | some sq =>
        rw [hs] at hdb
        exact queryDatabase_dbError_eq_false hdb
  have hnull : st.dbNull = false := by
    unfold dbLookupResult at hdb
    cases hq : queryDatabase st now (generateCacheKey q s c) with
    | some r => exact queryDatabase_dbNull_eq_false hq
    | none =>
      rw [hq] at hdb
      cases hs : findSynonymQuery st (normalizeQuery q) with
      | none => rw [hs] at hdb; exact absurd hdb (by simp)
      | some sq =>
        rw [hs] at hdb
        exact queryDatabase_dbNull_eq_false hdb
  have hbump : (updateHitCount st now row.query_hash).search_cache =
      st.search_cache.map fun r =>
        if r.query_hash = row.query_hash then
          { r with hit_count := r.hit_count + 1, last_accessed := now,
                   updated_at := now }
        else r := by
    unfold updateHitCount
    rw [herr, hnull]
    rfl
  rw [getCachedResult_mem_none e hinit hmem]
  unfold getFromDbPath
  rw [hdb]
  dsimp only
  cases hp : parseResults row.search_results with
  | some res =>
    dsimp only
    rw [updateCacheStats_search_cache]
    exact hbump
  | none =>
    dsimp only
    rw [updateCacheStats_search_cache]
    exact hbump

/-- Witness for C9, amended: the corrupt-row state, where the lookup finds
the row, the payload fails to parse, and the row is still bumped. -/
theorem C9_persistent_hit_bumps_hit_count_witness :
    (getCachedResult corruptState 100 "passport" "Delhi" "Mumbai"
      0).2.search_cache =
      corruptState.search_cache.map (fun r =>
        if r.query_hash = corruptRow.query_hash then
          { r with hit_count := r.hit_count + 1, last_accessed := 100,
                   updated_at := 100 }
        else r) :=
  C9_persistent_hit_bumps_hit_count corruptState 100 "passport" "Delhi"
    "Mumbai" 0 corruptRow (by decide) (by decide) (by decide)

/-- Claim C10.  The memory tier never grows beyond its capacity of 100:
one `addToMemoryCache` call keeps a tier within capacity; and when the tier
is exactly at capacity and the key being set is already present (but is not
the earliest-inserted key), the earliest entry is still evicted before the
in-place re-set, so the size drops to 99 — strictly below capacity. -/
theorem C10_capacity_never_exceeded (m : List (String × MemEntry))
    (k : String) (v : MemEntry) :
    (m.length ≤ memoryCacheSize →
      (addToMemoryCache m k v).length ≤ memoryCacheSize) ∧
    (∀ (k0 : String) (v0 : MemEntry) (rest : List (String × MemEntry)),
      m = (k0, v0) :: rest → (m.map Prod.fst).Nodup →
      m.length = memoryCacheSize → k ∈ m.map Prod.fst → k ≠ k0 →
      (addToMemoryCache m k v).length = memoryCacheSize - 1 ∧
      (addToMemoryCache m k v).length < memoryCacheSize) := by
  constructor
  · intro hle
    unfold addToMemoryCache
    split
    · next hcap =>
      cases m with
      | nil => simp [memoryCacheSize] at hcap
      | cons p m' =>
        show (mapSet (mapDelete (p :: m') p.1) k v).length ≤ memoryCacheSize
        have h1 : (mapDelete (p :: m') p.1).length ≤ m'.length := by
          unfold mapDelete
          rw [List.filter_cons]
          have hc : (decide (p.1 ≠ p.1)) = false := by simp
          simp only [hc, Bool.false_eq_true, if_false]
          exact List.length_filter_le _ _
        have h2 := length_mapSet_le (mapDelete (p :: m') p.1) k v
        simp only [List.length_cons] at hle
        omega
    · next hcap =>
      show (mapSet m k v).length ≤ memoryCacheSize
      have h2 := length_mapSet_le m k v
      simp only [not_le] at hcap
      omega
  · intro k0 v0 rest hm hnd hlen hk hne
    subst hm
    have hk0 : k0 ∉ rest.map Prod.fst := by
      simp only [List.map_cons, List.nodup_cons] at hnd
      exact hnd.1
    have hkrest : k ∈ rest.map Prod.fst := by
      simp only [List.map_cons, List.mem_cons] at hk
      exact hk.resolve_left hne
    have hcap : memoryCacheSize ≤ ((k0, v0) :: rest).length := hlen.ge
    have hmain : (addToMemoryCache ((k0, v0) :: rest) k v).length =
        rest.length := by
      unfold addToMemoryCache
      rw [if_pos hcap]
      show (mapSet (mapDelete ((k0, v0) :: rest) (k0, v0).1) k v).length =
        rest.length
      rw [show (k0, v0).1 = k0 from rfl, mapDelete_cons_self hk0,
        length_mapSet_of_mem v hkrest]
    have hrest : rest.length = memoryCacheSize - 1 := by
      simp only [List.length_cons] at hlen
      omega
    constructor
    · rw [hmain, hrest]
    · rw [hmain, hrest]
      norm_num [memoryCacheSize]

/-- Witness for C10 at the concrete 100-entry tier, re-setting the present
key "5": the call both stays within capacity and drops the size to 99. -/
theorem C10_capacity_never_exceeded_witness :
    (hundredEntryTier.length ≤ memoryCacheSize ∧
      (addToMemoryCache hundredEntryTier "5" ⟨[], 0⟩).length ≤
        memoryCacheSize) ∧
    ((addToMemoryCache (("0", ⟨[], 0⟩) :: hundredEntryTier.tail) "5"
        ⟨[], 0⟩).length = memoryCacheSize - 1 ∧
     (addToMemoryCache (("0", ⟨[], 0⟩) :: hundredEntryTier.tail) "5"
        ⟨[], 0⟩).length < memoryCacheSize) :=
  ⟨⟨by decide,
    (C10_capacity_never_exceeded hundredEntryTier "5" ⟨[], 0⟩).1 (by decide)⟩,
   (C10_capacity_never_exceeded (("0", ⟨[], 0⟩) :: hundredEntryTier.tail)
      "5" ⟨[], 0⟩).2 "0" ⟨[], 0⟩ hundredEntryTier.tail rfl (by decide)
      (by decide) (by decide) (by decide)⟩

/-! ### Claim C4: the normalization pipeline -/

/-! ### Character-level lemmas -/

theorem char_toNat_ofNat {n : Nat} (h : n < 55296) : (Char.ofNat n).toNat = n := by
  have hv : n.isValidChar := Or.inl h
  rw [Char.ofNat, dif_pos hv]
  simp [Char.ofNatAux, Char.toNat, UInt32.toNat, BitVec.ofNatLt]

theorem char_toLower_eq (c : Char) :
    Char.toLower c =
      if c.toNat ≥ 65 ∧ c.toNat ≤ 90 then Char.ofNat (c.toNat + 32) else c := by
  rfl

theorem char_le_iff {a c : Char} : (a ≤ c) ↔ a.toNat ≤ c.toNat :=
  ⟨fun h => h, fun h => h⟩

theorem ws_toNat {c : Char} (h : isWsChar c = true) :
    c.toNat = 32 ∨ c.toNat = 9 ∨ c.toNat = 10 ∨ c.toNat = 11 ∨
    c.toNat = 12 ∨ c.toNat = 13 := by
  simp only [isWsChar, Bool.or_eq_true, decide_eq_true_eq] at h
  rcases h with ((((h | h) | h) | h) | h) | h <;> subst h <;> decide

theorem toLower_of_not_upper {c : Char} (h : ¬(c.toNat ≥ 65 ∧ c.toNat ≤ 90)) :
    Char.toLower c = c := by rw [char_toLower_eq, if_neg h]

theorem word_toNat {c : Char} (h : isWordChar c = true) :
    (97 ≤ c.toNat ∧ c.toNat ≤ 122) ∨ (65 ≤ c.toNat ∧ c.toNat ≤ 90) ∨
    (48 ≤ c.toNat ∧ c.toNat ≤ 57) ∨ c.toNat = 95 := by
  simp only [isWordChar, Bool.or_eq_true, Bool.and_eq_true,
    decide_eq_true_eq] at h
  rcases h with ((⟨h1, h2⟩ | ⟨h1, h2⟩) | ⟨h1, h2⟩) | h
  · exact Or.inl ⟨char_le_iff.mp h1, char_le_iff.mp h2⟩
  · exact Or.inr (Or.inl ⟨char_le_iff.mp h1, char_le_iff.mp h2⟩)
  · exact Or.inr (Or.inr (Or.inl ⟨char_le_iff.mp h1, char_le_iff.mp h2⟩))
  · subst h; exact Or.inr (Or.inr (Or.inr (by decide)))

theorem word_of_toNat_lower {c : Char} (h1 : 97 ≤ c.toNat)
    (h2 : c.toNat ≤ 122) : isWordChar c = true := by
  simp only [isWordChar, Bool.or_eq_true, Bool.and_eq_true, decide_eq_true_eq]
  exact Or.inl (Or.inl (Or.inl ⟨char_le_iff.mpr h1, char_le_iff.mpr h2⟩))

theorem ws_toLower {c : Char} (h : isWsChar c = true) : Char.toLower c = c := by
  apply toLower_of_not_upper
  rcases ws_toNat h with h' | h' | h' | h' | h' | h' <;> omega

theorem word_toLower {c : Char} (h : isWordChar c = true) :
    isWordChar (Char.toLower c) = true := by
  by_cases hu : c.toNat ≥ 65 ∧ c.toNat ≤ 90
  · have h1 : c.toLower = Char.ofNat (c.toNat + 32) := by
      rw [char_toLower_eq, if_pos hu]
    have h2 : (Char.ofNat (c.toNat + 32)).toNat = c.toNat + 32 :=
      char_toNat_ofNat (by omega)
    rw [h1]
    exact word_of_toNat_lower (by omega) (by omega)
  · rw [toLower_of_not_upper hu]; exact h

theorem ws_not_word {c : Char} (h : isWsChar c = true) :
    isWordChar c = false := by
  rcases Bool.eq_false_or_eq_true (isWordChar c) with h' | h'
  · exfalso
    rcases ws_toNat h with hn | hn | hn | hn | hn | hn <;>
      rcases word_toNat h' with ⟨a, b⟩ | ⟨a, b⟩ | ⟨a, b⟩ | a <;> omega
  · exact h'

theorem toLower_ws {c : Char} : isWsChar (Char.toLower c) = isWsChar c := by
  by_cases hu : c.toNat ≥ 65 ∧ c.toNat ≤ 90
  · have h1 : c.toLower = Char.ofNat (c.toNat + 32) := by
      rw [char_toLower_eq, if_pos hu]
    have h2 : (Char.ofNat (c.toNat + 32)).toNat = c.toNat + 32 :=
      char_toNat_ofNat (by omega)
    rw [h1]
    have hlhs : isWsChar (Char.ofNat (c.toNat + 32)) = false := by
      rcases Bool.eq_false_or_eq_true (isWsChar (Char.ofNat (c.toNat + 32)))
        with h' | h'
      · exfalso; rcases ws_toNat h' with hn | hn | hn | hn | hn | hn <;> omega
      · exact h'
    have hrhs : isWsChar c = false := by
      rcases Bool.eq_false_or_eq_true (isWsChar c) with h' | h'
      · exfalso; rcases ws_toNat h' with hn | hn | hn | hn | hn | hn <;> omega
      · exact h'
    rw [hlhs, hrhs]
  · rw [toLower_of_not_upper hu]

theorem toLower_toLower (c : Char) :
    Char.toLower (Char.toLower c) = Char.toLower c := by
  by_cases h : c.toNat ≥ 65 ∧ c.toNat ≤ 90
  · have h1 : c.toLower = Char.ofNat (c.toNat + 32) := by
      rw [char_toLower_eq, if_pos h]
    have h2 : (Char.ofNat (c.toNat + 32)).toNat = c.toNat + 32 :=
      char_toNat_ofNat (by omega)
    rw [h1, char_toLower_eq, h2, if_neg (by omega)]
  · have h1 : c.toLower = c := by rw [char_toLower_eq, if_neg h]
    rw [h1]; exact h1

/-! ### Membership transport through the pipeline stages -/

theorem mem_collapseWs {c : Char} : ∀ {l : List Char},
    c ∈ collapseWs l → c ∈ l ∨ c = ' '
  | [], h => by simp [collapseWs] at h
  | [d], h => by
    unfold collapseWs at h
    split at h
    · simp at h; exact Or.inr h
    · simp at h; exact Or.inl (by simp [h])
  | d :: e :: rest, h => by
    unfold collapseWs at h
    split at h
    · rcases mem_collapseWs h with h' | h'
      · exact Or.inl (List.mem_cons_of_mem _ h')
      · exact Or.inr h'
    · rcases List.mem_cons.mp h with h' | h'
      · subst h'
        split
        · exact Or.inr rfl
        · exact Or.inl (List.mem_cons_self _ _)
      · rcases mem_collapseWs h' with h'' | h''
        · exact Or.inl (List.mem_cons_of_mem _ h'')
        · exact Or.inr h''

theorem mem_jsTrim {c : Char} {l : List Char} (h : c ∈ jsTrim l) : c ∈ l := by
  unfold jsTrim at h
  rw [List.mem_reverse] at h
  have h1 := (List.dropWhile_sublist _).mem h
  rw [List.mem_reverse] at h1
  exact (List.dropWhile_sublist _).mem h1

theorem mem_emitWord {c : Char} {w : List Char} (h : c ∈ emitWord w) :
    c ∈ w := by
  unfold emitWord at h
  split at h
  · simp at h
  · exact h

theorem mem_removeStopAux {c : Char} : ∀ (l buf : List Char),
    c ∈ removeStopAux buf l → c ∈ buf ∨ c ∈ l
  | [], buf, h => by
    unfold removeStopAux at h
    have := mem_emitWord h
    rw [List.mem_reverse] at this
    exact Or.inl this
  | d :: rest, buf, h => by
    unfold removeStopAux at h
    split at h
    · rcases mem_removeStopAux rest (d :: buf) h with h' | h'
      · rcases List.mem_cons.mp h' with h'' | h''
        · exact Or.inr (by simp [h''])
        · exact Or.inl h''
      · exact Or.inr (List.mem_cons_of_mem _ h')
    · rw [List.mem_append] at h
      rcases h with h' | h'
      · exact Or.inl (by
          have := mem_emitWord h'
          rwa [List.mem_reverse] at this)
      · rcases List.mem_cons.mp h' with h'' | h''
        · exact Or.inr (by simp [h''])
        · rcases mem_removeStopAux rest [] h'' with h3 | h3
          · simp at h3
          · exact Or.inr (List.mem_cons_of_mem _ h3)

theorem mem_removeStop {c : Char} {l : List Char}
    (h : c ∈ removeStopWords l) : c ∈ l := by
  rcases mem_removeStopAux l [] h with h' | h'
  · simp at h'
  · exact h'

theorem mem_removePunct {c : Char} {l : List Char} (h : c ∈ removePunct l) :
    c ∈ l := List.mem_of_mem_filter h

theorem mem_normalizeQueryL {c : Char} {l : List Char}
    (h : c ∈ normalizeQueryL l) : c ∈ l.map Char.toLower ∨ c = ' ' := by
  unfold normalizeQueryL at h
  have h1 := mem_jsTrim h
  rcases mem_collapseWs h1 with h2 | h2
  · have h3 := mem_removeStop (mem_removePunct h2)
    rcases mem_collapseWs h3 with h4 | h4
    · exact Or.inl (mem_jsTrim h4)
    · exact Or.inr h4
  · exact Or.inr h2

/-! ### Trim: edge characterization and idempotence -/

theorem headNotWs_dropWhile : ∀ (l : List Char),
    HeadNotWs (l.dropWhile isWsChar)
  | [] => by intro c hc; simp at hc
  | d :: rest => by
    intro c hc
    rw [List.dropWhile_cons] at hc
    split at hc
    · exact headNotWs_dropWhile rest c hc
    · next hw =>
      simp at hc
      subst hc
      simpa using hw

theorem dropWhile_eq_self_of_head {l : List Char} (h : HeadNotWs l) :
    l.dropWhile isWsChar = l := by
  cases l with
  | nil => rfl
  | cons d rest =>
    rw [List.dropWhile_cons, if_neg]
    rw [h d rfl]
    simp

theorem headNotWs_reverse_iff {l : List Char} :
    HeadNotWs l.reverse ↔ LastNotWs l := by
  unfold HeadNotWs LastNotWs
  constructor
  · intro h c hc
    exact h c (by rwa [List.head?_reverse])
  · intro h c hc
    rw [List.head?_reverse] at hc
    exact h c hc

theorem lastNotWs_dropWhile {l : List Char} (h : LastNotWs l) :
    LastNotWs (l.dropWhile isWsChar) := by
  intro c hc
  obtain ⟨t, ht⟩ := List.dropWhile_suffix (l := l) (p := isWsChar)
  have hne : l.dropWhile isWsChar ≠ [] := by
    intro hnil
    rw [hnil] at hc
    simp at hc
  apply h c
  rw [← ht, List.getLast?_append, hc]
  rfl

theorem jsTrim_headNotWs (l : List Char) : HeadNotWs (jsTrim l) := by
  unfold jsTrim
  rw [headNotWs_reverse_iff]
  apply lastNotWs_dropWhile
  rw [← headNotWs_reverse_iff, List.reverse_reverse]
  exact headNotWs_dropWhile l

theorem jsTrim_lastNotWs (l : List Char) : LastNotWs (jsTrim l) := by
  unfold jsTrim
  rw [← headNotWs_reverse_iff, List.reverse_reverse]
  exact headNotWs_dropWhile _

theorem jsTrim_eq_self {l : List Char} (h1 : HeadNotWs l) (h2 : LastNotWs l) :
    jsTrim l = l := by
  unfold jsTrim
  rw [dropWhile_eq_self_of_head h1,
    dropWhile_eq_self_of_head (headNotWs_reverse_iff.mpr h2),
    List.reverse_reverse]

theorem jsTrim_idem (l : List Char) : jsTrim (jsTrim l) = jsTrim l :=
  jsTrim_eq_self (jsTrim_headNotWs l) (jsTrim_lastNotWs l)

/-! ### Collapse: output shape and fixedness -/

theorem collapseWs_ws_eq_space : ∀ {l : List Char} {c : Char},
    c ∈ collapseWs l → isWsChar c = true → c = ' '
  | [], c, h, _ => by simp [collapseWs] at h
  | [d], c, h, hw => by
    unfold collapseWs at h
    split at h
    · simpa using h
    · next hd =>
      simp at h
      subst h
      simp at hd
      rw [hd] at hw
      cases hw
  | d :: e :: rest, c, h, hw => by
    unfold collapseWs at h
    split at h
    · exact collapseWs_ws_eq_space h hw
    · rcases List.mem_cons.mp h with h' | h'
      · subst h'
        by_cases hd : isWsChar d = true
        · rw [if_pos hd]
        · rw [if_neg hd] at hw ⊢
          rw [Bool.not_eq_true] at hd
          rw [hd] at hw
          cases hw
      · exact collapseWs_ws_eq_space h' hw

theorem head_collapseWs_cons {d : Char} {r : List Char}
    (hd : isWsChar d = false) : (collapseWs (d :: r)).head? = some d := by
  cases r with
  | nil =>
    unfold collapseWs
    rw [if_neg (by simp [hd])]
    rfl
  | cons e rest =>
    unfold collapseWs
    rw [if_neg (by simp [hd])]
    simp [hd]

theorem collapseWs_noAdjWs : ∀ (l : List Char), NoAdjWs (collapseWs l)
  | [] => by simp [collapseWs, NoAdjWs]
  | [c] => by
    unfold collapseWs
    split <;> simp [NoAdjWs]
  | c :: d :: rest => by
    unfold collapseWs
    split
    · exact collapseWs_noAdjWs (d :: rest)
    · next hcd =>
      rw [NoAdjWs, List.chain'_cons']
      refine ⟨?_, collapseWs_noAdjWs (d :: rest)⟩
      intro y hy
      by_cases hd : isWsChar d = true
      · have hc : isWsChar c = false := by
          rcases Bool.eq_false_or_eq_true (isWsChar c) with h' | h'
          · exfalso; apply hcd; simp [h', hd]
          · exact h'
        left
        rw [if_neg (by simp [hc])]
        exact hc
      · rw [Bool.not_eq_true] at hd
        right
        rw [head_collapseWs_cons hd] at hy
        simp at hy
        subst hy
        exact hd

theorem collapseWs_eq_self : ∀ {l : List Char},
    (∀ c ∈ l, isWsChar c = true → c = ' ') → NoAdjWs l → collapseWs l = l
  | [], _, _ => rfl
  | [c], hws, _ => by
    unfold collapseWs
    split
    · next hc => rw [hws c (by simp) hc]
    · rfl
  | c :: d :: rest, hws, hadj => by
    unfold collapseWs
    have hpair : isWsChar c = false ∨ isWsChar d = false := by
      have := (List.chain'_cons.mp hadj).1
      exact this
    have hrest : NoAdjWs (d :: rest) := (List.chain'_cons.mp hadj).2
    have hwsrest : ∀ e ∈ d :: rest, isWsChar e = true → e = ' ' := by
      intro e he hw
      exact hws e (List.mem_cons_of_mem _ he) hw
    rw [if_neg (by
      rcases hpair with h' | h' <;> simp [h'])]
    rw [collapseWs_eq_self hwsrest hrest]
    by_cases hc : isWsChar c = true
    · rw [if_pos hc, hws c (by simp) hc]
    · rw [if_neg hc]

theorem noAdjWs_append_right {a b : List Char} (h : NoAdjWs (a ++ b)) :
    NoAdjWs b :=
  (List.chain'_append.mp h).2.1

theorem noAdjWs_append_left {a b : List Char} (h : NoAdjWs (a ++ b)) :
    NoAdjWs a :=
  (List.chain'_append.mp h).1

theorem dropWhile_rev_decomposition (A : List Char) :
    A = (A.reverse.dropWhile isWsChar).reverse ++
      (A.reverse.takeWhile isWsChar).reverse := by
  conv_lhs => rw [← List.reverse_reverse A,
    ← List.takeWhile_append_dropWhile (p := isWsChar) (l := A.reverse)]
  rw [List.reverse_append]

theorem jsTrim_decomposition (l : List Char) :
    l.dropWhile isWsChar = jsTrim l ++
      ((l.dropWhile isWsChar).reverse.takeWhile isWsChar).reverse :=
  dropWhile_rev_decomposition (l.dropWhile isWsChar)

theorem noAdjWs_jsTrim {l : List Char} (h : NoAdjWs l) :
    NoAdjWs (jsTrim l) := by
  have hA : NoAdjWs (l.dropWhile isWsChar) := by
    have hl : l = l.takeWhile isWsChar ++ l.dropWhile isWsChar :=
      (List.takeWhile_append_dropWhile isWsChar l).symm
    exact noAdjWs_append_right (hl ▸ h)
  rw [jsTrim_decomposition l] at hA
  exact noAdjWs_append_left hA

/-! ### Word runs through the stages -/

theorem runsAux_nil (buf : List Char) :
    runsAux buf [] = if buf.isEmpty then [] else [buf.reverse] := rfl

theorem runsAux_cons_word {c : Char} (hc : isWordChar c = true)
    (buf rest : List Char) :
    runsAux buf (c :: rest) = runsAux (c :: buf) rest := by
  conv_lhs => unfold runsAux
  rw [if_pos hc]

theorem runsAux_cons_nonword {c : Char} (hc : isWordChar c = false)
    (buf rest : List Char) :
    runsAux buf (c :: rest) =
      (if buf.isEmpty then [] else [buf.reverse]) ++ runsAux [] rest := by
  conv_lhs => unfold runsAux
  rw [hc]
  simp

theorem runsAux_cons_ws {c : Char} (hc : isWsChar c = true)
    (buf rest : List Char) :
    runsAux buf (c :: rest) =
      (if buf.isEmpty then [] else [buf.reverse]) ++ runsAux [] rest :=
  runsAux_cons_nonword (ws_not_word hc) buf rest

theorem collapseWs_cons₂ (c d : Char) (rest : List Char) :
    collapseWs (c :: d :: rest) =
      if isWsChar c && isWsChar d then collapseWs (d :: rest)
      else (if isWsChar c then ' ' else c) :: collapseWs (d :: rest) := rfl

theorem runsAux_append_word : ∀ (w : List Char)
    (_ : ∀ c ∈ w, isWordChar c = true) (buf t : List Char),
    runsAux buf (w ++ t) = runsAux (w.reverse ++ buf) t
  | [], _, buf, t => by simp
  | c :: w', hw, buf, t => by
    have hc : isWordChar c = true := hw c (by simp)
    rw [List.cons_append, runsAux_cons_word hc,
      runsAux_append_word w' (fun d hd => hw d (List.mem_cons_of_mem _ hd))
        (c :: buf) t]
    congr 1
    rw [List.reverse_cons, List.append_assoc]
    rfl

theorem runsAux_collapseWs : ∀ (l : List Char) (buf : List Char),
    runsAux buf (collapseWs l) = runsAux buf l
  | [], _ => rfl
  | [c], buf => by
    by_cases hc : isWsChar c = true
    · show runsAux buf (if isWsChar c then [' '] else [c]) = _
      rw [if_pos hc, runsAux_cons_ws (by decide) buf [],
        runsAux_cons_ws hc buf []]
    · show runsAux buf (if isWsChar c then [' '] else [c]) = _
      rw [if_neg (by simp [hc])]
  | c :: d :: rest, buf => by
    rw [collapseWs_cons₂]
    by_cases hcd : (isWsChar c && isWsChar d) = true
    · rw [if_pos hcd]
      rw [Bool.and_eq_true] at hcd
      obtain ⟨hc, hd⟩ := hcd
      rw [runsAux_collapseWs (d :: rest) buf, runsAux_cons_ws hd,
        runsAux_cons_ws hc, runsAux_cons_ws hd]
      simp
    · rw [if_neg hcd]
      by_cases hc : isWsChar c = true
      · rw [if_pos hc, runsAux_cons_ws (by decide : isWsChar ' ' = true),
          runsAux_cons_ws hc, runsAux_collapseWs (d :: rest) []]
      · rw [if_neg hc]
        by_cases hword : isWordChar c = true
        · rw [runsAux_cons_word hword, runsAux_cons_word hword,
            runsAux_collapseWs (d :: rest) (c :: buf)]
        · have hword' : isWordChar c = false := by
            rcases Bool.eq_false_or_eq_true (isWordChar c) with h | h
            · exact absurd h hword
            · exact h
          rw [runsAux_cons_nonword hword', runsAux_cons_nonword hword',
            runsAux_collapseWs (d :: rest) []]

theorem wordRuns_dropWhile : ∀ (l : List Char),
    wordRuns (l.dropWhile isWsChar) = wordRuns l
  | [] => rfl
  | c :: rest => by
    rw [List.dropWhile_cons]
    split
    · next hc =>
      rw [wordRuns_dropWhile rest]
      show wordRuns rest = wordRuns (c :: rest)
      unfold wordRuns
      rw [runsAux_cons_ws (by simpa using hc)]
      simp
    · rfl

theorem runsAux_all_ws : ∀ (wsl : List Char)
    (_ : ∀ c ∈ wsl, isWsChar c = true) (buf : List Char),
    runsAux buf wsl = runsAux buf []
  | [], _, _ => rfl
  | c :: w, hws, buf => by
    rw [runsAux_cons_ws (hws c (by simp))]
    rw [runsAux_all_ws w (fun d hd => hws d (List.mem_cons_of_mem _ hd)) []]
    rw [runsAux_nil, runsAux_nil]
    simp

theorem runsAux_append_ws : ∀ (m : List Char) {wsl : List Char}
    (_ : ∀ c ∈ wsl, isWsChar c = true) (buf : List Char),
    runsAux buf (m ++ wsl) = runsAux buf m
  | [], wsl, hws, buf => by
    rw [List.nil_append]
    exact runsAux_all_ws wsl hws buf
  | c :: m', wsl, hws, buf => by
    by_cases hw : isWordChar c = true
    · rw [List.cons_append, runsAux_cons_word hw, runsAux_cons_word hw]
      exact runsAux_append_ws m' hws (c :: buf)
    · have hw' : isWordChar c = false := by
        rcases Bool.eq_false_or_eq_true (isWordChar c) with h | h
        · exact absurd h hw
        · exact h
      rw [List.cons_append, runsAux_cons_nonword hw', runsAux_cons_nonword hw']
      rw [runsAux_append_ws m' hws []]

theorem wordRuns_jsTrim (l : List Char) : wordRuns (jsTrim l) = wordRuns l := by
  have h1 : wordRuns (l.dropWhile isWsChar) = wordRuns l := wordRuns_dropWhile l
  have h2 := jsTrim_decomposition l
  have hws : ∀ c ∈ ((l.dropWhile isWsChar).reverse.takeWhile isWsChar).reverse,
      isWsChar c = true := by
    intro c hcmem
    rw [List.mem_reverse] at hcmem
    have := List.all_takeWhile (l := (l.dropWhile isWsChar).reverse)
      (p := isWsChar)
    rw [List.all_eq_true] at this
    exact this c hcmem
  rw [← h1, h2]
  unfold wordRuns
  exact (runsAux_append_ws (jsTrim l) hws []).symm

theorem removeStopAux_nil (buf : List Char) :
    removeStopAux buf [] = emitWord buf.reverse := rfl

theorem removeStopAux_cons_word {c : Char} (hc : isWordChar c = true)
    (buf rest : List Char) :
    removeStopAux buf (c :: rest) = removeStopAux (c :: buf) rest := by
  conv_lhs => unfold removeStopAux
  rw [if_pos hc]

theorem removeStopAux_cons_nonword {c : Char} (hc : isWordChar c = false)
    (buf rest : List Char) :
    removeStopAux buf (c :: rest) =
      emitWord buf.reverse ++ c :: removeStopAux [] rest := by
  conv_lhs => unfold removeStopAux
  rw [hc]
  simp

theorem contains_nil_eq_false : stopWords.contains ([] : List Char) = false := by
  decide

theorem runsAux_of_buf (buf : List Char)
    (hbuf : ∀ c ∈ buf, isWordChar c = true) :
    runsAux [] buf.reverse = runsAux buf [] := by
  have hrev : ∀ c ∈ buf.reverse, isWordChar c = true := by
    intro c hc
    exact hbuf c (List.mem_reverse.mp hc)
  have := runsAux_append_word buf.reverse hrev [] []
  rw [List.append_nil, List.reverse_reverse, List.append_nil] at this
  exact this

theorem stop_contains_eq (w : List Char) :
    stopWords.contains w = decide (w ∈ stopWords) :=
  List.elem_eq_mem w stopWords

theorem mem_of_stop_contains {w : List Char}
    (h : stopWords.contains w = true) : w ∈ stopWords := by
  rw [stop_contains_eq] at h
  exact of_decide_eq_true h

theorem not_mem_of_stop_contains {w : List Char}
    (h : stopWords.contains w = false) : w ∉ stopWords := by
  rw [stop_contains_eq] at h
  exact of_decide_eq_false h

theorem runsAux_removeStopAux : ∀ (l buf : List Char),
    (∀ c ∈ buf, isWordChar c = true) →
    runsAux [] (removeStopAux buf l) =
      (runsAux buf l).filter fun w => !stopWords.contains w
  | [], buf, hbuf => by
    rw [removeStopAux_nil, runsAux_nil]
    by_cases hstop : stopWords.contains buf.reverse = true
    · have hbne : buf.isEmpty = false := by
        cases buf with
        | nil => exact absurd hstop (by decide)
        | cons b bs => rfl
      have hmem := mem_of_stop_contains hstop
      unfold emitWord
      rw [if_pos hstop, hbne]
      simp [hmem, runsAux_nil]
    · have hstop' : stopWords.contains buf.reverse = false := by
        rcases Bool.eq_false_or_eq_true (stopWords.contains buf.reverse)
          with h | h
        · exact absurd h hstop
        · exact h
      have hnm := not_mem_of_stop_contains hstop'
      unfold emitWord
      rw [if_neg (by rw [hstop']; simp)]
      rw [runsAux_of_buf buf hbuf, runsAux_nil]
      cases buf with
      | nil => rfl
      | cons b bs =>
        simp only [List.reverse_cons] at hnm
        simp [hnm]
  | c :: rest, buf, hbuf => by
    by_cases hword : isWordChar c = true
    · rw [removeStopAux_cons_word hword, runsAux_cons_word hword]
      exact runsAux_removeStopAux rest (c :: buf)
        (fun d hd => by
          rcases List.mem_cons.mp hd with h' | h'
          · subst h'; exact hword
          · exact hbuf d h')
    · have hword' : isWordChar c = false := by
        rcases Bool.eq_false_or_eq_true (isWordChar c) with h | h
        · exact absurd h hword
        · exact h
      rw [removeStopAux_cons_nonword hword', runsAux_cons_nonword hword']
      rw [List.filter_append]
      by_cases hstop : stopWords.contains buf.reverse = true
      · have hbne : buf.isEmpty = false := by
          cases buf with
          | nil => exact absurd hstop (by decide)
          | cons b bs => rfl
        have hmem := mem_of_stop_contains hstop
        unfold emitWord
        rw [if_pos hstop, hbne, List.nil_append,
          runsAux_cons_nonword hword']
        show (if ([] : List Char).isEmpty = true then [] else _) ++ _ = _
        simp only [List.isEmpty_nil, if_true, List.nil_append]
        rw [runsAux_removeStopAux rest [] (by simp)]
        simp [hmem]
      · have hstop' : stopWords.contains buf.reverse = false := by
          rcases Bool.eq_false_or_eq_true (stopWords.contains buf.reverse)
            with h | h
          · exact absurd h hstop
          · exact h
        have hnm := not_mem_of_stop_contains hstop'
        unfold emitWord
        rw [if_neg (by rw [hstop']; simp)]
        have hrev : ∀ d ∈ buf.reverse, isWordChar d = true := by
          intro d hd
          exact hbuf d (List.mem_reverse.mp hd)
        rw [runsAux_append_word buf.reverse hrev [] _, List.append_nil,
          List.reverse_reverse, runsAux_cons_nonword hword',
          runsAux_removeStopAux rest [] (by simp)]
        cases buf with
        | nil => simp
        | cons b bs =>
          simp only [List.reverse_cons] at hnm
          simp [hnm]

theorem wordRuns_removeStop (l : List Char) :
    wordRuns (removeStopWords l) =
      (wordRuns l).filter fun w => !stopWords.contains w :=
  runsAux_removeStopAux l [] (by simp)

theorem removeStopAux_eq_self : ∀ (l buf : List Char),
    (∀ c ∈ buf, isWordChar c = true) →
    (∀ w ∈ runsAux buf l, stopWords.contains w = false) →
    removeStopAux buf l = buf.reverse ++ l
  | [], buf, _, hruns => by
    rw [removeStopAux_nil]
    cases buf with
    | nil => rfl
    | cons b bs =>
      have hmem : (b :: bs).reverse ∈ runsAux (b :: bs) [] := by
        rw [runsAux_nil]
        simp
      unfold emitWord
      rw [if_neg (by rw [hruns _ hmem]; simp)]
      simp
  | c :: rest, buf, hbuf, hruns => by
    by_cases hword : isWordChar c = true
    · rw [removeStopAux_cons_word hword]
      rw [removeStopAux_eq_self rest (c :: buf)
        (fun d hd => by
          rcases List.mem_cons.mp hd with h' | h'
          · subst h'; exact hword
          · exact hbuf d h')
        (fun w hw => hruns w (by rw [runsAux_cons_word hword]; exact hw))]
      simp
    · have hword' : isWordChar c = false := by
        rcases Bool.eq_false_or_eq_true (isWordChar c) with h | h
        · exact absurd h hword
        · exact h
      rw [removeStopAux_cons_nonword hword']
      have hruns' := hruns
      rw [runsAux_cons_nonword hword'] at hruns'
      have hrest : ∀ w ∈ runsAux [] rest, stopWords.contains w = false := by
        intro w hw
        exact hruns' w (List.mem_append.mpr (Or.inr hw))
      rw [removeStopAux_eq_self rest [] (by simp) hrest]
      cases buf with
      | nil => rfl
      | cons b bs =>
        have hmem : (b :: bs).reverse ∈
            (if (b :: bs).isEmpty = true then [] else [(b :: bs).reverse]) ++
              runsAux [] rest := by
          simp
        unfold emitWord
        rw [if_neg (by rw [hruns' _ hmem]; simp)]
        simp

theorem removeStop_eq_self {l : List Char}
    (h : ∀ w ∈ wordRuns l, stopWords.contains w = false) :
    removeStopWords l = l := by
  unfold removeStopWords
  have := removeStopAux_eq_self l [] (by simp) h
  simpa using this

theorem punctFree_map_toLower {l : List Char} (h : PunctFree l) :
    PunctFree (l.map Char.toLower) := by
  intro c hc
  obtain ⟨d, hd, rfl⟩ := List.mem_map.mp hc
  rcases h d hd with h' | h'
  · exact Or.inl (word_toLower h')
  · rw [ws_toLower h']
    exact Or.inr h'

theorem punctFree_jsTrim {l : List Char} (h : PunctFree l) :
    PunctFree (jsTrim l) :=
  fun c hc => h c (mem_jsTrim hc)

theorem punctFree_collapseWs {l : List Char} (h : PunctFree l) :
    PunctFree (collapseWs l) := by
  intro c hc
  rcases mem_collapseWs hc with h' | h'
  · exact h c h'
  · subst h'
    exact Or.inr (by decide)

theorem punctFree_removeStop {l : List Char} (h : PunctFree l) :
    PunctFree (removeStopWords l) :=
  fun c hc => h c (mem_removeStop hc)

theorem removePunct_eq_self {l : List Char} (h : PunctFree l) :
    removePunct l = l := by
  rw [removePunct, List.filter_eq_self]
  intro c hc
  rcases h c hc with h' | h' <;> simp [h']

theorem wordRuns_collapseWs (l : List Char) :
    wordRuns (collapseWs l) = wordRuns l :=
  runsAux_collapseWs l []

theorem normalizeQueryL_fixed (u : List Char) (hu : PunctFree u)
    (hruns : ∀ w ∈ wordRuns u, stopWords.contains w = false)
    (hlower : ∀ c ∈ u, Char.toLower c = c) :
    normalizeQueryL (jsTrim (collapseWs u)) = jsTrim (collapseWs u) := by
  have hmemy : ∀ c ∈ jsTrim (collapseWs u), c ∈ u ∨ c = ' ' := by
    intro c hc
    exact mem_collapseWs (mem_jsTrim hc)
  have hLFy : ∀ c ∈ jsTrim (collapseWs u), Char.toLower c = c := by
    intro c hc
    rcases hmemy c hc with h' | h'
    · exact hlower c h'
    · subst h'
      decide
  have hmapy : (jsTrim (collapseWs u)).map Char.toLower =
      jsTrim (collapseWs u) := by
    have := List.map_congr_left (g := id) hLFy
    rwa [List.map_id] at this
  have hPFy : PunctFree (jsTrim (collapseWs u)) := by
    intro c hc
    rcases hmemy c hc with h' | h'
    · exact hu c h'
    · subst h'
      exact Or.inr (by decide)
  have htrim : jsTrim (jsTrim (collapseWs u)) = jsTrim (collapseWs u) :=
    jsTrim_idem (collapseWs u)
  have hcoll : collapseWs (jsTrim (collapseWs u)) = jsTrim (collapseWs u) :=
    collapseWs_eq_self
      (fun c hc hw => collapseWs_ws_eq_space (mem_jsTrim hc) hw)
      (noAdjWs_jsTrim (collapseWs_noAdjWs u))
  have hstopy : removeStopWords (jsTrim (collapseWs u)) =
      jsTrim (collapseWs u) := by
    apply removeStop_eq_self
    intro w hw
    rw [wordRuns_jsTrim, wordRuns_collapseWs] at hw
    exact hruns w hw
  have hpuncty : removePunct (jsTrim (collapseWs u)) =
      jsTrim (collapseWs u) := removePunct_eq_self hPFy
  unfold normalizeQueryL
  rw [hmapy, htrim, hcoll, hstopy, hpuncty, hcoll, htrim]

theorem normalizeQueryL_idem_of_punctFree (x : List Char)
    (hx : PunctFree x) :
    normalizeQueryL (normalizeQueryL x) = normalizeQueryL x := by
  have hx' : PunctFree (x.map Char.toLower) := punctFree_map_toLower hx
  have hu : PunctFree
      (removeStopWords (collapseWs (jsTrim (x.map Char.toLower)))) :=
    punctFree_removeStop (punctFree_collapseWs (punctFree_jsTrim hx'))
  have hyeq : normalizeQueryL x = jsTrim (collapseWs
      (removeStopWords (collapseWs (jsTrim (x.map Char.toLower))))) := by
    unfold normalizeQueryL
    rw [removePunct_eq_self hu]
  have hruns : ∀ w ∈ wordRuns
      (removeStopWords (collapseWs (jsTrim (x.map Char.toLower)))),
      stopWords.contains w = false := by
    intro w hw
    rw [wordRuns_removeStop] at hw
    have := List.mem_filter.mp hw
    have h2 := this.2
    simp only [Bool.not_eq_true'] at h2
    exact h2
  have hlower : ∀ c ∈
      removeStopWords (collapseWs (jsTrim (x.map Char.toLower))),
      Char.toLower c = c := by
    intro c hc
    rcases mem_collapseWs (mem_removeStop hc) with h' | h'
    · obtain ⟨d, _, rfl⟩ := List.mem_map.mp (mem_jsTrim h')
      exact toLower_toLower d
    · subst h'
      decide
  rw [hyeq]
  exact normalizeQueryL_fixed _ hu hruns hlower

/-- Claim C4, counterexample.  Normalization is not idempotent: stripping
punctuation can create a fresh stop word that only a second pass removes.
On "t,o" the first pass removes the comma and yields "to", but a second
application removes "to" (a stop word) and yields the empty string. -/
theorem C4_normalize_not_idempotent :
    normalizeQuery (normalizeQuery "t,o") ≠ normalizeQuery "t,o" := by
  decide

/-- Claim C4, amended.  On punctuation-free inputs — every character a word
character or whitespace — `normalizeQuery` is idempotent.  (In general a
second application can differ exactly because the punctuation-stripping
stage, which runs after stop-word removal, can form new stop words; see the
counterexample.) -/
theorem C4_normalize_idempotent_on_punctFree (s : String)
    (h : ∀ c ∈ s.data, isWordChar c = true ∨ isWsChar c = true) :
    normalizeQuery (normalizeQuery s) = normalizeQuery s := by
  show (⟨normalizeQueryL (normalizeQueryL s.data)⟩ : String) =
    ⟨normalizeQueryL s.data⟩
  rw [normalizeQueryL_idem_of_punctFree s.data h]

/-- Witness for C4, amended, on the spec's own normalization example. -/
theorem C4_normalize_idempotent_witness :
    (∀ c ∈ ("The  Passport   Application").data,
      isWordChar c = true ∨ isWsChar c = true) ∧
    normalizeQuery (normalizeQuery "The  Passport   Application") =
      normalizeQuery "The  Passport   Application" :=
  ⟨by decide, C4_normalize_idempotent_on_punctFree _ (by decide)⟩

end PortalFinder
